import Mathlib

/-!
Verification of the juicebox-hsm-realm core against its specification.

The definitions below are shallow embeddings of the Rust sources:
* `HsmCore` embeds `src/realm/hsm.rs` (the HSM state machine).
* `HsmTypes` embeds `src/realm/hsm/types.rs` (`RecordId`, `OwnedRange`).
* `Bigtable` embeds `src/realm/store/bigtable.rs` (log keys and append).
* `Cluster` embeds `cluster_core/src/transfer.rs` (the transfer coordinator).
* `Entrust` embeds `entrust-hsm/src/platform.rs` (NVRam layout) and
  `hsmcore/src/hal.rs` (`MAX_NVRAM_SIZE`).
* `AgentApi` embeds `agent_api/src/lib.rs` (`HashedUserId`).

MACs computed with the realm key (`Hmac<Sha256>` in the source) are modelled
symbolically: a MAC value is the tuple of the key and the exact fields fed to
the HMAC, so that two MACs are equal exactly when they were built from the
same key and message.  This is the standard symbolic model of an unforgeable,
collision-free MAC.
-/

namespace HsmCore

/-- 16-byte opaque HSM id (`HsmId(pub [u8; 16])`), abstracted to a natural
number with decidable equality and a total order (used by `Configuration::is_ok`). -/
structure HsmId where
  val : Nat
deriving DecidableEq, Repr

/-- 16-byte opaque realm id (`RealmId(pub [u8; 16])`). -/
structure RealmId where
  val : Nat
deriving DecidableEq, Repr

/-- 16-byte opaque group id (`GroupId(pub [u8; 16])`). -/
structure GroupId where
  val : Nat
deriving DecidableEq, Repr

/-- The realm MAC key (`RealmKey`, a `Hmac<Sha256>` key), abstract. -/
structure RealmKey where
  val : Nat
deriving DecidableEq, Repr

/-- `LogIndex(pub u64)`.  Abstracted to `Nat`; `LogIndex::next` is
`checked_add(1).unwrap()`, which for the unbounded model is plain `+ 1`. -/
abbrev LogIndex := Nat

/-- `TransferNonce(pub [u8; 16])`, abstract. -/
structure TransferNonce where
  val : Nat
deriving DecidableEq, Repr

/-- In this revision of `hsm.rs` a `RecordId` is a vector of bits
(`RecordMap::hash` iterates `rid.0` as bits, and `TransferOutRequest`
builds a `RecordId` from a bit-vector). -/
abbrev RecordId := List Bool

/-- The app-layer record value.  Its definition lives in `hsm/app.rs`
(not part of the sources); it is carried around opaquely here. -/
structure Record where
  val : Nat
deriving DecidableEq, Repr

/-- Strict lexicographic order on bit vectors, mirroring Rust's derived
`Ord` for `Vec<bool>` (`false < true`, a proper prefix sorts first). -/
def bitsLt : List Bool → List Bool → Bool
  | _, [] => false
  | [], _ :: _ => true
  | a :: as, b :: bs => (!a && b) || (a == b && bitsLt as bs)

/-- `RecordMap(pub BTreeMap<RecordId, Record>)`, kept as an association
list sorted by `bitsLt` so that equal maps have equal representations
(matching `BTreeMap`'s canonical ordered form). -/
structure RecordMap where
  entries : List (RecordId × Record)
deriving DecidableEq, Repr

/-- `RecordMap::new()`. -/
def RecordMap.new : RecordMap := ⟨[]⟩

def insertSorted (k : RecordId) (v : Record) :
    List (RecordId × Record) → List (RecordId × Record)
  | [] => [(k, v)]
  | (k0, v0) :: rest =>
    if bitsLt k k0 then (k, v) :: (k0, v0) :: rest
    else if k = k0 then (k, v) :: rest
    else (k0, v0) :: insertSorted k v rest

/-- `BTreeMap::insert`. -/
def RecordMap.insert (m : RecordMap) (k : RecordId) (v : Record) : RecordMap :=
  ⟨insertSorted k v m.entries⟩

/-- `BTreeMap::remove`. -/
def RecordMap.erase (m : RecordMap) (k : RecordId) : RecordMap :=
  ⟨m.entries.filter (fun p => p.1 ≠ k)⟩

/-- `BTreeMap::get`. -/
def RecordMap.get (m : RecordMap) (k : RecordId) : Option Record :=
  (m.entries.find? (fun p => p.1 = k)).map Prod.snd

/-- `BTreeMap::split_off(&k)`: the first component is what remains in
`self` (keys `< k`), the second is the split-off tail (keys `≥ k`). -/
def RecordMap.splitOff (m : RecordMap) (k : RecordId) : RecordMap × RecordMap :=
  (⟨m.entries.filter (fun p => bitsLt p.1 k)⟩,
   ⟨m.entries.filter (fun p => !bitsLt p.1 k)⟩)

/-- `DataHash`: SHA-256 over the ordered serialized contents of a
`RecordMap`.  Modelled symbolically as the serialized contents themselves,
so equal hashes correspond exactly to equal maps (collision-freeness). -/
structure DataHash where
  image : List (RecordId × Record)
deriving DecidableEq, Repr

/-- `RecordMap::hash`. -/
def RecordMap.hash (m : RecordMap) : DataHash := ⟨m.entries⟩

/-- `OwnedPrefix` (its definition lives in the older `hsm/types.rs` not in
the sources): the bit-vector key space owned by a group; `full()` is the
empty bit vector covering everything. -/
abbrev OwnedBits := List Bool

/-- `OwnedPrefix::full()`. -/
def OwnedBits.full : OwnedBits := []

/-- Modelled from the spec: `OwnedPrefix::contains(rid)` — whether the
record id falls under the owned bit-vector (the prefix tree node covers
exactly the ids extending its bit path). -/
def OwnedBits.containsRid (p : OwnedBits) (r : RecordId) : Bool :=
  r.take p.length == p

/-- `Partition { prefix, hash }` (field `prefix` renamed `pfx`). -/
structure Partition where
  pfx : OwnedBits
  hash : DataHash
deriving DecidableEq, Repr

/-- `TransferringOut { destination, partition, at }` (field `at` renamed
`atIndex`: `at` is reserved in Lean). -/
structure TransferringOut where
  destination : GroupId
  partition : Partition
  atIndex : LogIndex
deriving DecidableEq, Repr

/-- `EntryHmac`: a realm-keyed HMAC over the fields fed by
`EntryHmacBuilder::calculate` (realm, group, index, partition,
transferring_out, prev_hmac), plus the distinguished `EntryHmac::zero()`
value.  Symbolic model: the MAC is the tuple of key and message. -/
inductive EntryHmac where
  | zero : EntryHmac
  | mac (key : RealmKey) (realm : RealmId) (group : GroupId) (index : LogIndex)
      (partition : Option Partition) (transferringOut : Option TransferringOut)
      (prevHmac : EntryHmac) : EntryHmac
deriving DecidableEq, Repr

/-- `EntryHmacBuilder::verify_entry`: the entry's MAC verifies under `key`
for `(realm, group)` iff it equals the MAC of the entry's own fields. -/
def verifyEntry (key : RealmKey) (realm : RealmId) (group : GroupId)
    (index : LogIndex) (partition : Option Partition)
    (transferringOut : Option TransferringOut) (prevHmac entryHmac : EntryHmac) : Bool :=
  entryHmac = EntryHmac.mac key realm group index partition transferringOut prevHmac

/-- `LogEntry`. -/
structure LogEntry where
  index : LogIndex
  partition : Option Partition
  transferringOut : Option TransferringOut
  prevHmac : EntryHmac
  entryHmac : EntryHmac
deriving DecidableEq, Repr

/-- `CapturedStatement`: realm-keyed HMAC over
(hsm, realm, group, index, entry_hmac) per `CapturedStatementBuilder`. -/
inductive CapturedStatement where
  | mac (key : RealmKey) (hsm : HsmId) (realm : RealmId) (group : GroupId)
      (index : LogIndex) (entryHmac : EntryHmac) : CapturedStatement
deriving DecidableEq, Repr

/-- `GroupConfigurationStatement`: realm-keyed HMAC over
(realm, group, configuration) per `GroupConfigurationStatementBuilder`. -/
inductive GroupConfigurationStatement where
  | mac (key : RealmKey) (realm : RealmId) (group : GroupId)
      (configuration : List HsmId) : GroupConfigurationStatement
deriving DecidableEq, Repr

/-- `TransferStatement`: realm-keyed HMAC over
(realm, partition, destination, nonce) per `TransferStatementBuilder`. -/
inductive TransferStatement where
  | mac (key : RealmKey) (realm : RealmId) (partition : Partition)
      (destination : GroupId) (nonce : TransferNonce) : TransferStatement
deriving DecidableEq, Repr

/-- `Configuration(pub Vec<HsmId>)`. -/
abbrev Configuration := List HsmId

/-- `Configuration::is_ok`: non-empty, sorted, and unique (strictly
increasing adjacent pairs). -/
def configurationIsOk (c : Configuration) : Bool :=
  !c.isEmpty && (c.zip (c.drop 1)).all (fun p => p.1.val < p.2.val)

/-- Opaque app-layer request (`SecretsRequest`, defined in `hsm/app.rs`). -/
structure SecretsRequest where
  val : Nat
deriving DecidableEq, Repr

/-- Opaque app-layer response (`SecretsResponse`). -/
structure SecretsResponse where
  val : Nat
deriving DecidableEq, Repr

/-- `RecordChange` from `hsm/app.rs`: the delta a request applies to one
record (inferred from its two uses in `hsm.rs`: `Update(record)` and
`Delete`). -/
inductive RecordChange where
  | update (record : Record) : RecordChange
  | delete : RecordChange
deriving DecidableEq, Repr

/-- Lookup in a `HashMap` modelled as an association list (`get`). -/
def alGet {κ α : Type} [DecidableEq κ] : List (κ × α) → κ → Option α
  | [], _ => none
  | (k0, v) :: rest, k => if k0 = k then some v else alGet rest k

/-- `HashMap::insert` / in-place mutation through `get_mut`: replace the
binding for `k` if present, otherwise append it. -/
def alPut {κ α : Type} [DecidableEq κ] : List (κ × α) → κ → α → List (κ × α)
  | [], k, v => [(k, v)]
  | (k0, v0) :: rest, k, v =>
    if k0 = k then (k, v) :: rest else (k0, v0) :: alPut rest k v

/-- `PersistentGroupState`. -/
structure PersistentGroupState where
  configuration : Configuration
  captured : Option (LogIndex × EntryHmac)
deriving DecidableEq, Repr

/-- `PersistentRealmState` (the `groups` `HashMap` as an association list). -/
structure PersistentRealmState where
  id : RealmId
  groups : List (GroupId × PersistentGroupState)
deriving DecidableEq, Repr

/-- `PersistentState`. -/
structure PersistentState where
  id : HsmId
  realmKey : RealmKey
  realm : Option PersistentRealmState
deriving DecidableEq, Repr

/-- `LeaderLogEntry`. -/
structure LeaderLogEntry where
  entry : LogEntry
  delta : Option (RecordId × RecordChange)
  response : Option SecretsResponse
deriving DecidableEq, Repr

/-- `LeaderVolatileGroupState`. -/
structure LeaderVolatileGroupState where
  log : List LeaderLogEntry
  committed : Option LogIndex
  incoming : Option TransferNonce
deriving DecidableEq, Repr

/-- `VolatileState`. -/
structure VolatileState where
  leader : List (GroupId × LeaderVolatileGroupState)
deriving DecidableEq, Repr

/-- `Hsm` (the tracing-only `name: String` field is dropped). -/
structure Hsm where
  persistent : PersistentState
  volatile : VolatileState
deriving DecidableEq, Repr

/-- `NewRealmRequest`. -/
structure NewRealmRequest where
  configuration : Configuration
deriving DecidableEq, Repr

/-- `NewGroupInfo` returned by `create_new_group`. -/
structure NewGroupInfo where
  realm : RealmId
  group : GroupId
  statement : GroupConfigurationStatement
  entry : LogEntry
  partition : Option Partition
  data : Option RecordMap
deriving DecidableEq, Repr

/-- `NewRealmResponse`. -/
inductive NewRealmResponse where
  | ok (info : NewGroupInfo)
  | haveRealm
  | invalidConfiguration
deriving DecidableEq, Repr

/-- `JoinRealmRequest`. -/
structure JoinRealmRequest where
  realm : RealmId
deriving DecidableEq, Repr

/-- `JoinRealmResponse`. -/
inductive JoinRealmResponse where
  | ok (hsm : HsmId)
  | haveOtherRealm
deriving DecidableEq, Repr

/-- `NewGroupRequest`. -/
structure NewGroupRequest where
  realm : RealmId
  configuration : Configuration
deriving DecidableEq, Repr

/-- `NewGroupResponse`. -/
inductive NewGroupResponse where
  | ok (info : NewGroupInfo)
  | invalidRealm
  | invalidConfiguration
deriving DecidableEq, Repr

/-- `JoinGroupRequest`. -/
structure JoinGroupRequest where
  realm : RealmId
  group : GroupId
  configuration : Configuration
  statement : GroupConfigurationStatement
deriving DecidableEq, Repr

/-- `JoinGroupResponse`. -/
inductive JoinGroupResponse where
  | ok
  | invalidRealm
  | invalidConfiguration
  | invalidStatement
deriving DecidableEq, Repr

/-- `CaptureNextRequest`. -/
structure CaptureNextRequest where
  realm : RealmId
  group : GroupId
  entry : LogEntry
deriving DecidableEq, Repr

/-- `CaptureNextResponse`. -/
inductive CaptureNextResponse where
  | ok (hsmId : HsmId) (captured : CapturedStatement)
  | invalidRealm
  | invalidGroup
  | invalidHmac
  | invalidChain
  | missingPrev
deriving DecidableEq, Repr

/-- `BecomeLeaderRequest`. -/
structure BecomeLeaderRequest where
  realm : RealmId
  group : GroupId
  lastEntry : LogEntry
deriving DecidableEq, Repr

/-- `BecomeLeaderResponse`. -/
inductive BecomeLeaderResponse where
  | ok
  | invalidRealm
  | invalidGroup
  | invalidHmac
  | notCaptured (haveIdx : Option LogIndex)
deriving DecidableEq, Repr

/-- `ReadCapturedRequest`. -/
structure ReadCapturedRequest where
  realm : RealmId
  group : GroupId
deriving DecidableEq, Repr

/-- `ReadCapturedResponse`. -/
inductive ReadCapturedResponse where
  | ok (hsmId : HsmId) (index : LogIndex) (entryHmac : EntryHmac)
      (statement : CapturedStatement)
  | invalidRealm
  | invalidGroup
  | none
deriving DecidableEq, Repr

/-- `CommitRequest`. -/
structure CommitRequest where
  realm : RealmId
  group : GroupId
  index : LogIndex
  entryHmac : EntryHmac
  captures : List (HsmId × CapturedStatement)
deriving DecidableEq, Repr

/-- `CommitResponse`. -/
inductive CommitResponse where
  | ok (committed : Option LogIndex) (responses : List (EntryHmac × SecretsResponse))
  | alreadyCommitted (committed : LogIndex)
  | noQuorum
  | invalidRealm
  | invalidGroup
  | notLeader
deriving DecidableEq, Repr

/-- `TransferOutRequest` (this revision transfers bit-vector partitions and
carries the record data inline; fields per their uses in the handler). -/
structure TransferOutRequest where
  realm : RealmId
  source : GroupId
  destination : GroupId
  pfx : OwnedBits
  index : LogIndex
  data : RecordMap
deriving DecidableEq, Repr

/-- `TransferOutResponse`. -/
inductive TransferOutResponse where
  | ok (entry : LogEntry) (keeping : Option RecordMap) (transferring : RecordMap)
  | invalidRealm
  | invalidGroup
  | notLeader
  | notOwner
  | staleIndex
  | invalidData
deriving DecidableEq, Repr

/-- `TransferNonceRequest`. -/
structure TransferNonceRequest where
  realm : RealmId
  destination : GroupId
deriving DecidableEq, Repr

/-- `TransferNonceResponse`. -/
inductive TransferNonceResponse where
  | ok (nonce : TransferNonce)
  | invalidRealm
  | invalidGroup
  | notLeader
deriving DecidableEq, Repr

/-- `TransferStatementRequest`. -/
structure TransferStatementRequest where
  realm : RealmId
  source : GroupId
  destination : GroupId
  nonce : TransferNonce
deriving DecidableEq, Repr

/-- `TransferStatementResponse`. -/
inductive TransferStatementResponse where
  | ok (statement : TransferStatement)
  | invalidRealm
  | invalidGroup
  | notLeader
  | notTransferring
  | busy
deriving DecidableEq, Repr

/-- `TransferInRequest`. -/
structure TransferInRequest where
  realm : RealmId
  destination : GroupId
  partition : Partition
  nonce : TransferNonce
  statement : TransferStatement
  data : RecordMap
deriving DecidableEq, Repr

/-- `TransferInResponse` (this revision: `UnacceptablePrefix` renamed
`unacceptableBits` to match `OwnedBits`). -/
inductive TransferInResponse where
  | ok (entry : LogEntry) (data : RecordMap)
  | invalidRealm
  | invalidGroup
  | notLeader
  | unacceptableBits
  | invalidNonce
  | invalidStatement
  | invalidData
deriving DecidableEq, Repr

/-- `CompleteTransferRequest`. -/
structure CompleteTransferRequest where
  realm : RealmId
  source : GroupId
  destination : GroupId
  pfx : OwnedBits
deriving DecidableEq, Repr

/-- `CompleteTransferResponse`. -/
inductive CompleteTransferResponse where
  | ok (entry : LogEntry)
  | notTransferring
  | invalidRealm
  | invalidGroup
  | notLeader
deriving DecidableEq, Repr

/-- `AppRequest` (fields per their uses in the handler). -/
structure AppRequest where
  realm : RealmId
  group : GroupId
  rid : RecordId
  request : SecretsRequest
  index : LogIndex
  data : RecordMap
deriving DecidableEq, Repr

/-- `AppResponse`. -/
inductive AppResponse where
  | ok (entry : LogEntry) (data : RecordMap)
  | invalidRealm
  | invalidGroup
  | staleIndex
  | busy
  | notOwner
  | notLeader
  | invalidData
deriving DecidableEq, Repr

/-- `Hsm::create_new_group`.  The randomly generated `GroupId` is supplied
by the caller (randomness is an environment input in this model).  Returns
`none` when the handler panics: `unwrap()` on a missing realm, or the
`assert!(existing.is_none())` on a group-id collision (a panic aborts the
HSM, so no state is externalised). -/
def createNewGroup (s : Hsm) (realm : RealmId) (configuration : Configuration)
    (ownedBits : Option OwnedBits) (group : GroupId) : Option (NewGroupInfo × Hsm) :=
  match s.persistent.realm with
  | none => none
  | some realmState =>
    let statement := GroupConfigurationStatement.mac s.persistent.realmKey realm
      group configuration
    if (alGet realmState.groups group).isSome then none
    else
      let groups := alPut realmState.groups group ⟨configuration, none⟩
      let index : LogIndex := 1
      let (partition, data) : Option Partition × Option RecordMap :=
        match ownedBits with
        | none => (none, none)
        | some p => (some ⟨p, RecordMap.new.hash⟩, some RecordMap.new)
      let transferringOut : Option TransferringOut := none
      let prevHmac := EntryHmac.zero
      let entryHmac := EntryHmac.mac s.persistent.realmKey realm group index
        partition transferringOut prevHmac
      let entry : LogEntry := ⟨index, partition, transferringOut, prevHmac, entryHmac⟩
      let leader := alPut s.volatile.leader group ⟨[⟨entry, none, none⟩], none, none⟩
      some (⟨realm, group, statement, entry, partition, data⟩,
        ⟨⟨s.persistent.id, s.persistent.realmKey, some ⟨realmState.id, groups⟩⟩, ⟨leader⟩⟩)

/-- `Handler<NewRealmRequest>`.  The random realm and group ids are
environment inputs. -/
def handleNewRealm (s : Hsm) (req : NewRealmRequest) (newRealmId : RealmId)
    (newGroupId : GroupId) : Option (NewRealmResponse × Hsm) :=
  if s.persistent.realm.isSome then some (.haveRealm, s)
  else if !(configurationIsOk req.configuration &&
      req.configuration.contains s.persistent.id) then
    some (.invalidConfiguration, s)
  else
    (createNewGroup
        ⟨⟨s.persistent.id, s.persistent.realmKey, some ⟨newRealmId, []⟩⟩, s.volatile⟩
        newRealmId req.configuration (some OwnedBits.full) newGroupId).map
      (fun p => (.ok p.1, p.2))

/-- `Handler<JoinRealmRequest>`. -/
def handleJoinRealm (s : Hsm) (req : JoinRealmRequest) : JoinRealmResponse × Hsm :=
  match s.persistent.realm with
  | some realm =>
    if realm.id = req.realm then (.ok s.persistent.id, s)
    else (.haveOtherRealm, s)
  | none =>
    (.ok s.persistent.id,
     { s with persistent := { s.persistent with realm := some ⟨req.realm, []⟩ } })

/-- `Handler<NewGroupRequest>`. -/
def handleNewGroup (s : Hsm) (req : NewGroupRequest) (newGroupId : GroupId) :
    Option (NewGroupResponse × Hsm) :=
  match s.persistent.realm with
  | none => some (.invalidRealm, s)
  | some realm =>
    if realm.id ≠ req.realm then some (.invalidRealm, s)
    else if !(configurationIsOk req.configuration &&
        req.configuration.contains s.persistent.id) then
      some (.invalidConfiguration, s)
    else
      (createNewGroup s req.realm req.configuration none newGroupId).map
        (fun p => (.ok p.1, p.2))

/-- `Handler<JoinGroupRequest>` (`entry(..).or_insert(..)` inserts the group
only when absent). -/
def handleJoinGroup (s : Hsm) (req : JoinGroupRequest) : JoinGroupResponse × Hsm :=
  match s.persistent.realm with
  | none => (.invalidRealm, s)
  | some realm =>
    if realm.id ≠ req.realm then (.invalidRealm, s)
    else if req.statement ≠ GroupConfigurationStatement.mac s.persistent.realmKey
        req.realm req.group req.configuration then
      (.invalidStatement, s)
    else if !(configurationIsOk req.configuration &&
        req.configuration.contains s.persistent.id) then
      (.invalidConfiguration, s)
    else
      match alGet realm.groups req.group with
      | some _ => (.ok, s)
      | none =>
        let realm2 : PersistentRealmState :=
          ⟨realm.id, alPut realm.groups req.group ⟨req.configuration, none⟩⟩
        (.ok, { s with persistent := { s.persistent with realm := some realm2 } })

/-- `Handler<CaptureNextRequest>`. -/
def handleCaptureNext (s : Hsm) (req : CaptureNextRequest) :
    CaptureNextResponse × Hsm :=
  match s.persistent.realm with
  | none => (.invalidRealm, s)
  | some realm =>
    if realm.id ≠ req.realm then (.invalidRealm, s)
    else if !verifyEntry s.persistent.realmKey req.realm req.group req.entry.index
        req.entry.partition req.entry.transferringOut req.entry.prevHmac
        req.entry.entryHmac then
      (.invalidHmac, s)
    else
      match alGet realm.groups req.group with
      | none => (.invalidGroup, s)
      | some group =>
        let chainCheck : Option CaptureNextResponse :=
          match group.captured with
          | none =>
            if req.entry.index ≠ 1 then some .missingPrev
            else if req.entry.prevHmac ≠ EntryHmac.zero then some .invalidChain
            else none
          | some (capturedIndex, capturedHmac) =>
            if req.entry.index ≠ capturedIndex + 1 then some .missingPrev
            else if req.entry.prevHmac ≠ capturedHmac then some .invalidChain
            else none
        match chainCheck with
        | some resp => (resp, s)
        | none =>
          let statement := CapturedStatement.mac s.persistent.realmKey
            s.persistent.id req.realm req.group req.entry.index req.entry.entryHmac
          let group2 : PersistentGroupState :=
            { group with captured := some (req.entry.index, req.entry.entryHmac) }
          let realm2 : PersistentRealmState :=
            ⟨realm.id, alPut realm.groups req.group group2⟩
          (.ok s.persistent.id statement,
           { s with persistent := { s.persistent with realm := some realm2 } })

/-- `Handler<BecomeLeaderRequest>` (`entry(..).or_insert_with(..)` seeds the
volatile leader state only when absent). -/
def handleBecomeLeader (s : Hsm) (req : BecomeLeaderRequest) :
    BecomeLeaderResponse × Hsm :=
  match s.persistent.realm with
  | none => (.invalidRealm, s)
  | some realm =>
    if realm.id ≠ req.realm then (.invalidRealm, s)
    else
      match alGet realm.groups req.group with
      | none => (.invalidGroup, s)
      | some group =>
        match group.captured with
        | none => (.notCaptured none, s)
        | some (capturedIndex, capturedHmac) =>
          if req.lastEntry.index ≠ capturedIndex ∨
              req.lastEntry.entryHmac ≠ capturedHmac then
            (.notCaptured (some capturedIndex), s)
          else if !verifyEntry s.persistent.realmKey req.realm req.group
              req.lastEntry.index req.lastEntry.partition
              req.lastEntry.transferringOut req.lastEntry.prevHmac
              req.lastEntry.entryHmac then
            (.invalidHmac, s)
          else
            match alGet s.volatile.leader req.group with
            | some _ => (.ok, s)
            | none =>
              (.ok,
               { s with volatile := ⟨alPut s.volatile.leader req.group
                   ⟨[⟨req.lastEntry, none, none⟩], none, none⟩⟩ })

/-- `Handler<ReadCapturedRequest>` (read-only). -/
def handleReadCaptured (s : Hsm) (req : ReadCapturedRequest) :
    ReadCapturedResponse × Hsm :=
  match s.persistent.realm with
  | none => (.invalidRealm, s)
  | some realm =>
    if realm.id ≠ req.realm then (.invalidRealm, s)
    else
      match alGet realm.groups req.group with
      | none => (.invalidGroup, s)
      | some group =>
        match group.captured with
        | none => (.none, s)
        | some (index, entryHmac) =>
          (.ok s.persistent.id index entryHmac
            (CapturedStatement.mac s.persistent.realmKey s.persistent.id
              req.realm req.group index entryHmac), s)

/-- The list of `(hsm_id, statement)` pairs that pass the commit handler's
filter: the id is a configuration member and the statement verifies for
`(request.index, request.entry_hmac)`; projected to the ids. -/
def commitVerifiedIds (s : Hsm) (req : CommitRequest)
    (group : PersistentGroupState) : List HsmId :=
  (req.captures.filter (fun p =>
      group.configuration.contains p.1 &&
      p.2 = CapturedStatement.mac s.persistent.realmKey p.1 req.realm req.group
        req.index req.entryHmac)).map Prod.fst

/-- The `.chain(..)` part of the commit handler's count: this HSM's own id,
when its persistent captured state matches `(request.index,
request.entry_hmac)`. -/
def commitSelfChain (s : Hsm) (req : CommitRequest)
    (group : PersistentGroupState) : List HsmId :=
  match group.captured with
  | some (index, entryHmac) =>
    if index = req.index ∧ entryHmac = req.entryHmac then [s.persistent.id] else []
  | none => []

/-- The responses released on commit: for each log entry with
`index ≤ request.index`, its pending response, tagged with its MAC
(the `filter`/`filter_map` over `leader.log`). -/
def releasedResponses (leader : LeaderVolatileGroupState) (index : LogIndex) :
    List (EntryHmac × SecretsResponse) :=
  leader.log.filterMap (fun e =>
    if e.entry.index ≤ index then
      e.response.map (fun r => (e.entry.entryHmac, r))
    else none)

/-- The leader state after a successful commit at `index`: the released
responses are taken out (`response.take()`) and `committed` advances. -/
def commitLeaderState (leader : LeaderVolatileGroupState) (index : LogIndex) :
    LeaderVolatileGroupState :=
  { leader with
      log := leader.log.map (fun e =>
        if e.entry.index ≤ index then { e with response := none } else e),
      committed := some index }

/-- The quorum-counting tail of `Handler<CommitRequest>` (everything after
the `AlreadyCommitted` early return).  The capture count is the size of the
`HashSet` built from the verifying supplied statements chained with this
HSM's own matching capture. -/
def commitCore (s : Hsm) (req : CommitRequest) (group : PersistentGroupState)
    (leader : LeaderVolatileGroupState) : CommitResponse × Hsm :=
  let captures :=
    ((commitVerifiedIds s req group ++ commitSelfChain s req group).dedup).length
  if captures > group.configuration.length / 2 then
    (.ok (some req.index) (releasedResponses leader req.index),
     { s with volatile :=
         ⟨alPut s.volatile.leader req.group (commitLeaderState leader req.index)⟩ })
  else
    (.noQuorum, s)

/-- `Handler<CommitRequest>`. -/
def handleCommit (s : Hsm) (req : CommitRequest) : CommitResponse × Hsm :=
  match s.persistent.realm with
  | none => (.invalidRealm, s)
  | some realm =>
    if realm.id ≠ req.realm then (.invalidRealm, s)
    else
      match alGet realm.groups req.group with
      | none => (.invalidGroup, s)
      | some group =>
        match alGet s.volatile.leader req.group with
        | none => (.notLeader, s)
        | some leader =>
          match leader.committed with
          | some committed =>
            if committed ≥ req.index then (.alreadyCommitted committed, s)
            else commitCore s req group leader
          | none => commitCore s req group leader

/-- The shared tail of `Handler<TransferOutRequest>`: build and append the
`transferring_out` log entry. -/
def transferOutFinish (s : Hsm) (req : TransferOutRequest)
    (leader : LeaderVolatileGroupState) (lastEntry : LogEntry)
    (keepingPartition : Option Partition) (keepingData : Option RecordMap)
    (transferringPartition : Partition) (transferringData : RecordMap) :
    TransferOutResponse × Hsm :=
  let index := lastEntry.index + 1
  let transferringOut : Option TransferringOut :=
    some ⟨req.destination, transferringPartition, index⟩
  let prevHmac := lastEntry.entryHmac
  let entryHmac := EntryHmac.mac s.persistent.realmKey req.realm req.source index
    keepingPartition transferringOut prevHmac
  let entry : LogEntry := ⟨index, keepingPartition, transferringOut, prevHmac, entryHmac⟩
  let leader2 := { leader with log := leader.log ++ [⟨entry, none, none⟩] }
  (.ok entry keepingData transferringData,
   { s with volatile := ⟨alPut s.volatile.leader req.source leader2⟩ })

/-- The one-more-bit branch of `Handler<TransferOutRequest>`: pop the last
bit of the requested bit-vector (`transferring_1`), keep its sibling
(`keeping_prefix`), split the record data at the `...1` boundary
(`prefix1`), and assign the halves by the popped bit (`keeping_0`). -/
def transferOutSplit (s : Hsm) (req : TransferOutRequest)
    (leader : LeaderVolatileGroupState) (lastEntry : LogEntry) :
    Option (TransferOutResponse × Hsm) :=
  match req.pfx.getLast? with
  | none => none
  | some transferring1 =>
    let base := req.pfx.dropLast
    let keepingBits := base ++ [!transferring1]
    let bits1 := base ++ [true]
    let (data0, data1) := req.data.splitOff bits1
    let (keepingData, transferringData) :=
      if transferring1 then (data0, data1) else (data1, data0)
    let keepingPartition : Option Partition := some ⟨keepingBits, keepingData.hash⟩
    let transferringPartition : Partition := ⟨req.pfx, transferringData.hash⟩
    some (transferOutFinish s req leader lastEntry keepingPartition
      (some keepingData) transferringPartition transferringData)

/-- `Handler<TransferOutRequest>`: moving out either the entire owned
bit-vector, or the owned bit-vector plus one more bit.  `none` models the
`unwrap()` panics. -/
def handleTransferOut (s : Hsm) (req : TransferOutRequest) :
    Option (TransferOutResponse × Hsm) :=
  match s.persistent.realm with
  | none => some (.invalidRealm, s)
  | some realm =>
    if realm.id ≠ req.realm then some (.invalidRealm, s)
    else if (alGet realm.groups req.source).isNone then some (.invalidGroup, s)
    else
      match alGet s.volatile.leader req.source with
      | none => some (.notLeader, s)
      | some leader =>
        match leader.log.getLast? with
        | none => none
        | some lastLeaderEntry =>
          match lastLeaderEntry.entry.partition with
          | none => some (.notOwner, s)
          | some ownedPartition =>
            if req.index ≠ lastLeaderEntry.entry.index then some (.staleIndex, s)
            else if req.data.hash ≠ ownedPartition.hash then some (.invalidData, s)
            else if req.pfx = ownedPartition.pfx then
              some (transferOutFinish s req leader lastLeaderEntry.entry none none
                ownedPartition req.data)
            else if req.pfx.length = ownedPartition.pfx.length + 1 &&
                req.pfx.take ownedPartition.pfx.length == ownedPartition.pfx then
              transferOutSplit s req leader lastLeaderEntry.entry
            else some (.notOwner, s)

/-- `Handler<TransferNonceRequest>`.  The random nonce is an environment
input. -/
def handleTransferNonce (s : Hsm) (req : TransferNonceRequest)
    (nonce : TransferNonce) : TransferNonceResponse × Hsm :=
  match s.persistent.realm with
  | none => (.invalidRealm, s)
  | some realm =>
    if realm.id ≠ req.realm then (.invalidRealm, s)
    else if (alGet realm.groups req.destination).isNone then (.invalidGroup, s)
    else
      match alGet s.volatile.leader req.destination with
      | none => (.notLeader, s)
      | some leader =>
        let leader2 := { leader with incoming := some nonce }
        (.ok nonce,
         { s with volatile := ⟨alPut s.volatile.leader req.destination leader2⟩ })

/-- `Handler<TransferStatementRequest>` (read-only). -/
def handleTransferStatement (s : Hsm) (req : TransferStatementRequest) :
    Option (TransferStatementResponse × Hsm) :=
  match s.persistent.realm with
  | none => some (.invalidRealm, s)
  | some realm =>
    if realm.id ≠ req.realm then some (.invalidRealm, s)
    else if (alGet realm.groups req.source).isNone then some (.invalidGroup, s)
    else
      match alGet s.volatile.leader req.source with
      | none => some (.notLeader, s)
      | some leader =>
        match leader.log.getLast? with
        | none => none
        | some last =>
          match last.entry.transferringOut with
          | none => some (.notTransferring, s)
          | some t =>
            if t.destination ≠ req.destination then some (.notTransferring, s)
            else if !(match leader.committed with
                | some c => decide (c ≥ t.atIndex)
                | none => false) then
              some (.busy, s)
            else
              some (.ok (TransferStatement.mac s.persistent.realmKey req.realm
                t.partition t.destination req.nonce), s)

/-- The tail of `Handler<TransferInRequest>` after the nonce matched:
`leader1` has `incoming` already cleared (the clearing sticks even when a
later check fails and an error is returned). -/
def transferInAccept (s : Hsm) (req : TransferInRequest)
    (leader1 : LeaderVolatileGroupState) : Option (TransferInResponse × Hsm) :=
  let s1 : Hsm :=
    { s with volatile := ⟨alPut s.volatile.leader req.destination leader1⟩ }
  match leader1.log.getLast? with
  | none => none
  | some last =>
    if last.entry.partition.isSome then some (.unacceptableBits, s1)
    else if req.statement ≠ TransferStatement.mac s.persistent.realmKey
        req.realm req.partition req.destination req.nonce then
      some (.invalidStatement, s1)
    else if req.data.hash ≠ req.partition.hash then some (.invalidData, s1)
    else
      let index := last.entry.index + 1
      let partition := some req.partition
      let transferringOut := last.entry.transferringOut
      let prevHmac := last.entry.entryHmac
      let entryHmac := EntryHmac.mac s.persistent.realmKey req.realm
        req.destination index partition transferringOut prevHmac
      let entry : LogEntry := ⟨index, partition, transferringOut, prevHmac, entryHmac⟩
      let leader2 := { leader1 with log := leader1.log ++ [⟨entry, none, none⟩] }
      some (.ok entry req.data,
        { s with volatile := ⟨alPut s.volatile.leader req.destination leader2⟩ })

/-- `Handler<TransferInRequest>`.  Note that `leader.incoming` is cleared as
soon as the nonce matches, before the remaining checks. -/
def handleTransferIn (s : Hsm) (req : TransferInRequest) :
    Option (TransferInResponse × Hsm) :=
  match s.persistent.realm with
  | none => some (.invalidRealm, s)
  | some realm =>
    if realm.id ≠ req.realm then some (.invalidRealm, s)
    else if (alGet realm.groups req.destination).isNone then some (.invalidGroup, s)
    else
      match alGet s.volatile.leader req.destination with
      | none => some (.notLeader, s)
      | some leader =>
        if leader.incoming ≠ some req.nonce then some (.invalidNonce, s)
        else transferInAccept s req { leader with incoming := none }

/-- The entry-building tail of `Handler<CompleteTransferRequest>`: append a
log entry that keeps the current partition and clears `transferring_out`. -/
def completeTransferFinish (s : Hsm) (req : CompleteTransferRequest)
    (leader : LeaderVolatileGroupState) (lastEntry : LogEntry) :
    CompleteTransferResponse × Hsm :=
  let index := lastEntry.index + 1
  let ownedPartition := lastEntry.partition
  let transferringOut : Option TransferringOut := none
  let prevHmac := lastEntry.entryHmac
  let entryHmac := EntryHmac.mac s.persistent.realmKey req.realm
    req.source index ownedPartition transferringOut prevHmac
  let entry : LogEntry := ⟨index, ownedPartition, transferringOut, prevHmac, entryHmac⟩
  let leader2 := { leader with log := leader.log ++ [⟨entry, none, none⟩] }
  (.ok entry, { s with volatile := ⟨alPut s.volatile.leader req.source leader2⟩ })

/-- `Handler<CompleteTransferRequest>`. -/
def handleCompleteTransfer (s : Hsm) (req : CompleteTransferRequest) :
    Option (CompleteTransferResponse × Hsm) :=
  match s.persistent.realm with
  | none => some (.invalidRealm, s)
  | some realm =>
    if realm.id ≠ req.realm then some (.invalidRealm, s)
    else if (alGet realm.groups req.source).isNone then some (.invalidGroup, s)
    else
      match alGet s.volatile.leader req.source with
      | none => some (.notLeader, s)
      | some leader =>
        match leader.log.getLast? with
        | none => none
        | some last =>
          match last.entry.transferringOut with
          | none => some (.notTransferring, s)
          | some t =>
            if t.destination ≠ req.destination ∨ t.partition.pfx ≠ req.pfx then
              some (.notTransferring, s)
            else some (completeTransferFinish s req leader last.entry)

/-- The app layer (`app::process` in the missing `hsm/app.rs`): from the
decrypted request and the current record, produce the client response and
an optional record change.  Kept as a parameter of the state machine. -/
abbrev AppProcess := SecretsRequest → Option Record → SecretsResponse × Option RecordChange

/-- Apply one `RecordChange` to the record map (the two `match change`
blocks in `handle_app_request`). -/
def applyChange (data : RecordMap) (rid : RecordId) (change : RecordChange) :
    RecordMap :=
  match change with
  | .update record => data.insert rid record
  | .delete => data.erase rid

/-- The pipelining loop of `handle_app_request`: fold the deltas of the
uncommitted entries after the request's entry into `data`; `none` models the
`Busy` early return when an uncommitted delta touches the same record. -/
def applyDeltas (rid : RecordId) : List LeaderLogEntry → RecordMap → Option RecordMap
  | [], data => some data
  | e :: rest, data =>
    match e.delta with
    | some (r, change) =>
      if r = rid then none
      else applyDeltas rid rest (applyChange data r change)
    | none => applyDeltas rid rest data

/-- `handle_app_request` (the helper function at the bottom of `hsm.rs`).
It borrows `persistent` immutably and mutates only the leader state.
`none` models the panics (`expect("log never empty")`, `last().unwrap()`,
and the `todo!()` on a missing tail partition). -/
def handleAppRequest (appProcess : AppProcess) (req : AppRequest)
    (persistent : PersistentState) (leader : LeaderVolatileGroupState) :
    Option (AppResponse × LeaderVolatileGroupState) :=
  match leader.log.head? with
  | none => none
  | some firstE =>
    let startIndex := firstE.entry.index
    if req.index < startIndex then some (.staleIndex, leader)
    else
      let offset := req.index - startIndex
      match (leader.log.drop offset).head? with
      | none => some (.staleIndex, leader)
      | some requestEntry =>
        match requestEntry.entry.partition with
        | none => some (.notLeader, leader)
        | some p =>
          if p.hash ≠ req.data.hash then some (.invalidData, leader)
          else
            match applyDeltas req.rid (leader.log.drop (offset + 1)) req.data with
            | none => some (.busy, leader)
            | some data =>
              match leader.log.getLast? with
              | none => none
              | some lastEntry =>
                let record := data.get req.rid
                let (clientResponse, change) := appProcess req.request record
                let (data2, delta) : RecordMap × Option (RecordId × RecordChange) :=
                  match change with
                  | some c => (applyChange data req.rid c, some (req.rid, c))
                  | none => (data, none)
                match lastEntry.entry.partition with
                | none => none
                | some p2 =>
                  let index := lastEntry.entry.index + 1
                  let partition : Option Partition := some ⟨p2.pfx, data2.hash⟩
                  let transferringOut := lastEntry.entry.transferringOut
                  let prevHmac := lastEntry.entry.entryHmac
                  let entryHmac := EntryHmac.mac persistent.realmKey req.realm
                    req.group index partition transferringOut prevHmac
                  let newEntry : LogEntry :=
                    ⟨index, partition, transferringOut, prevHmac, entryHmac⟩
                  some (.ok newEntry data2,
                    { leader with
                        log := leader.log ++ [⟨newEntry, delta, some clientResponse⟩] })

/-- `Handler<AppRequest>`. -/
def handleApp (appProcess : AppProcess) (s : Hsm) (req : AppRequest) :
    Option (AppResponse × Hsm) :=
  match s.persistent.realm with
  | none => some (.invalidRealm, s)
  | some realm =>
    if realm.id ≠ req.realm then some (.invalidRealm, s)
    else if (alGet realm.groups req.group).isNone then some (.invalidGroup, s)
    else
      match alGet s.volatile.leader req.group with
      | none => some (.notLeader, s)
      | some leader =>
        match leader.log.getLast? with
        | none => none
        | some last =>
          match last.entry.partition with
          | none => some (.notOwner, s)
          | some p =>
            if p.pfx.containsRid req.rid then
              (handleAppRequest appProcess req s.persistent leader).map
                (fun q => (q.1,
                  { s with volatile := ⟨alPut s.volatile.leader req.group q.2⟩ }))
            else some (.notOwner, s)

/-- `LeaderStatus` (status reporting). -/
structure LeaderStatus where
  committed : Option LogIndex
  ownedBits : Option OwnedBits
deriving DecidableEq, Repr

/-- `GroupStatus`. -/
structure GroupStatus where
  id : GroupId
  configuration : Configuration
  captured : Option (LogIndex × EntryHmac)
  leader : Option LeaderStatus
deriving DecidableEq, Repr

/-- `RealmStatus`. -/
structure RealmStatus where
  id : RealmId
  groups : List GroupStatus
deriving DecidableEq, Repr

/-- `StatusResponse`. -/
structure StatusResponse where
  id : HsmId
  realm : Option RealmStatus
deriving DecidableEq, Repr

/-- One `GroupStatus` row of the status report (the closure inside
`Handler<StatusRequest>`; `expect("leader's log is never empty")` maps an
empty leader log to `none`, modelling the panic). -/
def groupStatusOf (s : Hsm) : GroupId × PersistentGroupState → Option GroupStatus :=
  fun (groupId, group) =>
    match alGet s.volatile.leader groupId with
    | none => some ⟨groupId, group.configuration, group.captured, none⟩
    | some leader =>
      match leader.log.getLast? with
      | none => none
      | some last =>
        some ⟨groupId, group.configuration, group.captured,
          some ⟨leader.committed, last.entry.partition.map Partition.pfx⟩⟩

/-- `Handler<StatusRequest>` (read-only). -/
def handleStatus (s : Hsm) : Option (StatusResponse × Hsm) :=
  match s.persistent.realm with
  | none => some (⟨s.persistent.id, none⟩, s)
  | some realm =>
    match realm.groups.mapM (groupStatusOf s) with
    | none => none
    | some groups => some (⟨s.persistent.id, some ⟨realm.id, groups⟩⟩, s)

/-- One command sent to the HSM actor.  Randomly generated values
(realm/group ids, transfer nonces) are environment inputs carried by the
command. -/
inductive Command where
  | status
  | newRealm (req : NewRealmRequest) (newRealmId : RealmId) (newGroupId : GroupId)
  | joinRealm (req : JoinRealmRequest)
  | newGroup (req : NewGroupRequest) (newGroupId : GroupId)
  | joinGroup (req : JoinGroupRequest)
  | captureNext (req : CaptureNextRequest)
  | becomeLeader (req : BecomeLeaderRequest)
  | readCaptured (req : ReadCapturedRequest)
  | commit (req : CommitRequest)
  | transferOut (req : TransferOutRequest)
  | transferNonce (req : TransferNonceRequest) (nonce : TransferNonce)
  | transferStatement (req : TransferStatementRequest)
  | transferIn (req : TransferInRequest)
  | completeTransfer (req : CompleteTransferRequest)
  | app (req : AppRequest)
deriving DecidableEq, Repr

/-- The response to a command. -/
inductive Response where
  | status (r : StatusResponse)
  | newRealm (r : NewRealmResponse)
  | joinRealm (r : JoinRealmResponse)
  | newGroup (r : NewGroupResponse)
  | joinGroup (r : JoinGroupResponse)
  | captureNext (r : CaptureNextResponse)
  | becomeLeader (r : BecomeLeaderResponse)
  | readCaptured (r : ReadCapturedResponse)
  | commit (r : CommitResponse)
  | transferOut (r : TransferOutResponse)
  | transferNonce (r : TransferNonceResponse)
  | transferStatement (r : TransferStatementResponse)
  | transferIn (r : TransferInResponse)
  | completeTransfer (r : CompleteTransferResponse)
  | app (r : AppResponse)
deriving DecidableEq, Repr

/-- The HSM state machine: dispatch one command to its handler.  `none` is
a handler panic (the actix actor dies; nothing is externalised). -/
def step (appProcess : AppProcess) (s : Hsm) : Command → Option (Response × Hsm)
  | .status => (handleStatus s).map (fun p => (.status p.1, p.2))
  | .newRealm req newRealmId newGroupId =>
    (handleNewRealm s req newRealmId newGroupId).map (fun p => (.newRealm p.1, p.2))
  | .joinRealm req =>
    let p := handleJoinRealm s req
    some (.joinRealm p.1, p.2)
  | .newGroup req newGroupId =>
    (handleNewGroup s req newGroupId).map (fun p => (.newGroup p.1, p.2))
  | .joinGroup req =>
    let p := handleJoinGroup s req
    some (.joinGroup p.1, p.2)
  | .captureNext req =>
    let p := handleCaptureNext s req
    some (.captureNext p.1, p.2)
  | .becomeLeader req =>
    let p := handleBecomeLeader s req
    some (.becomeLeader p.1, p.2)
  | .readCaptured req =>
    let p := handleReadCaptured s req
    some (.readCaptured p.1, p.2)
  | .commit req =>
    let p := handleCommit s req
    some (.commit p.1, p.2)
  | .transferOut req => (handleTransferOut s req).map (fun p => (.transferOut p.1, p.2))
  | .transferNonce req nonce =>
    let p := handleTransferNonce s req nonce
    some (.transferNonce p.1, p.2)
  | .transferStatement req =>
    (handleTransferStatement s req).map (fun p => (.transferStatement p.1, p.2))
  | .transferIn req => (handleTransferIn s req).map (fun p => (.transferIn p.1, p.2))
  | .completeTransfer req =>
    (handleCompleteTransfer s req).map (fun p => (.completeTransfer p.1, p.2))
  | .app req => (handleApp appProcess s req).map (fun p => (.app p.1, p.2))

/-- Process a sequence of commands; a panic aborts the run. -/
def run (appProcess : AppProcess) : List Command → Hsm → Option Hsm
  | [], s => some s
  | c :: cs, s =>
    match step appProcess s c with
    | none => none
    | some (_, s2) => run appProcess cs s2

/-- The log index the next captured entry must carry: `1` with no prior
capture, else the prior captured index `+ 1`. -/
def expectedIndex : Option (LogIndex × EntryHmac) → LogIndex
  | none => 1
  | some (i, _) => i + 1

/-- The MAC the next captured entry's `prev_hmac` must equal: zero with no
prior capture, else the prior captured entry's MAC. -/
def expectedPrev : Option (LogIndex × EntryHmac) → EntryHmac
  | none => EntryHmac.zero
  | some (_, m) => m

/-- Whether a `CaptureNextResponse` is the `Ok` variant. -/
def isOkCN : CaptureNextResponse → Bool
  | .ok _ _ => true
  | _ => false

/-- Stated from the claim: the number of distinct HSM ids that are members
of the group's configuration and either supplied a verifying
`CapturedStatement` for exactly `(index, entry_mac)`, or are this HSM
itself when its own persistent captured state equals `(index, entry_mac)`. -/
def commitClaimCount (s : Hsm) (req : CommitRequest)
    (group : PersistentGroupState) : Nat :=
  (group.configuration.dedup.filter (fun h =>
    (req.captures.any (fun p =>
      p.1 = h ∧
      p.2 = CapturedStatement.mac s.persistent.realmKey h req.realm req.group
        req.index req.entryHmac)) ||
    (h = s.persistent.id && group.captured = some (req.index, req.entryHmac)))).length

/-- Stated from the claim: the commit outcome once realm, group and leader
are resolved and the index is not already committed — advance the commit
index and release the responses of entries `≤ index` exactly when the
claim's count is a strict majority of the configuration size, else
`NoQuorum` with nothing changed. -/
def commitSpecCore (s : Hsm) (req : CommitRequest) (group : PersistentGroupState)
    (leader : LeaderVolatileGroupState) : CommitResponse × Hsm :=
  if commitClaimCount s req group > group.configuration.length / 2 then
    (.ok (some req.index) (releasedResponses leader req.index),
     { s with volatile :=
         ⟨alPut s.volatile.leader req.group (commitLeaderState leader req.index)⟩ })
  else
    (.noQuorum, s)

/-- Stated from the claim: the full commit behaviour — `AlreadyCommitted`
(state unchanged) when the leader's commit index is already `≥ index`, else
`commitSpecCore`. -/
def commitSpecModel (s : Hsm) (req : CommitRequest) : CommitResponse × Hsm :=
  match s.persistent.realm with
  | none => (.invalidRealm, s)
  | some realm =>
    if realm.id ≠ req.realm then (.invalidRealm, s)
    else
      match alGet realm.groups req.group with
      | none => (.invalidGroup, s)
      | some group =>
        match alGet s.volatile.leader req.group with
        | none => (.notLeader, s)
        | some leader =>
          match leader.committed with
          | some committed =>
            if committed ≥ req.index then (.alreadyCommitted committed, s)
            else commitSpecCore s req group leader
          | none => commitSpecCore s req group leader

/-- A group's persistent captured pair on an HSM (empty when the realm or
group is absent). -/
def capturedOf (s : Hsm) (g : GroupId) : Option (LogIndex × EntryHmac) :=
  match s.persistent.realm with
  | none => none
  | some realm =>
    match alGet realm.groups g with
    | none => none
    | some group => group.captured

/-- The captured log index, with `0` for "no capture" (real indices start
at 1). -/
def capIdx : Option (LogIndex × EntryHmac) → Nat
  | none => 0
  | some (i, _) => i

end HsmCore

namespace ByteSeq

/-- Strict lexicographic order on byte sequences: Rust's derived `Ord` on
byte arrays and Bigtable's row-key order (`false` on equal sequences; a
proper initial segment sorts first). -/
def lexLt : List Nat → List Nat → Bool
  | _, [] => false
  | [], _ :: _ => true
  | a :: as, b :: bs => a < b || (a == b && lexLt as bs)

/-- Non-strict lexicographic order. -/
def lexLe (a b : List Nat) : Bool := a == b || lexLt a b

/-- Big-endian byte encoding of width `k` (`u32::to_be_bytes` at width 4,
`u64::to_be_bytes` at width 8, for values below `256^k`). -/
def beBytes : Nat → Nat → List Nat
  | 0, _ => []
  | k + 1, n => (n / 256 ^ k) % 256 :: beBytes k (n % 256 ^ k)

/-- Big-endian value of a byte sequence (`u32::from_be_bytes`). -/
def beVal (l : List Nat) : Nat := l.foldl (fun acc b => acc * 256 + b) 0

end ByteSeq

namespace HsmTypes

/-!
Embedding of `src/realm/hsm/types.rs` (the `OwnedRange` revision):
`RecordId(pub [u8; 32])` and `OwnedRange` with its range arithmetic.
-/

/-- `RecordId(pub [u8; 32])`: a list of byte values (length 32, each
`< 256`, stated as hypotheses where they matter). -/
abbrev RecordId := List Nat

/-- `RecordId::min_id()`. -/
def RecordId.minId : RecordId := List.replicate 32 0

/-- `RecordId::max_id()`. -/
def RecordId.maxId : RecordId := List.replicate 32 255

/-- Helper for `RecordId::next`, operating on the reversed byte list:
the first byte below 255 (scanning from the least significant end) is
incremented, the 255s passed over become 0; all-255 overflows to `none`. -/
def nextFromRight : List Nat → Option (List Nat)
  | [] => none
  | b :: rest =>
    if b < 255 then some ((b + 1) :: rest)
    else (nextFromRight rest).map (fun r => 0 :: r)

/-- `RecordId::next()`. -/
def RecordId.next (r : RecordId) : Option RecordId :=
  (nextFromRight r.reverse).map List.reverse

/-- Helper for `RecordId::prev`, operating on the reversed byte list. -/
def prevFromRight : List Nat → Option (List Nat)
  | [] => none
  | b :: rest =>
    if b > 0 then some ((b - 1) :: rest)
    else (prevFromRight rest).map (fun r => 255 :: r)

/-- `RecordId::prev()`. -/
def RecordId.prev (r : RecordId) : Option RecordId :=
  (prevFromRight r.reverse).map List.reverse

/-- Derived `Ord` on `RecordId`: `rid_a < rid_b`. -/
def ridLt (a b : RecordId) : Bool := ByteSeq.lexLt a b

/-- Derived `Ord` on `RecordId`: `rid_a <= rid_b`. -/
def ridLe (a b : RecordId) : Bool := ByteSeq.lexLe a b

/-- `OwnedRange { start, end }`, both inclusive (`end` renamed `endId`:
`end` is reserved in Lean). -/
structure OwnedRange where
  start : RecordId
  endId : RecordId
deriving DecidableEq, Repr

/-- `OwnedRange::full()`. -/
def OwnedRange.full : OwnedRange := ⟨RecordId.minId, RecordId.maxId⟩

/-- `OwnedRange::contains(rid)`. -/
def OwnedRange.containsRid (r : OwnedRange) (rid : RecordId) : Bool :=
  ridLe r.start rid && ridLe rid r.endId

/-- `OwnedRange::contains_range(rng)`. -/
def OwnedRange.containsRange (r rng : OwnedRange) : Bool :=
  r.containsRid rng.start && r.containsRid rng.endId

/-- `OwnedRange::join(other)`. -/
def OwnedRange.join (r other : OwnedRange) : Option OwnedRange :=
  let second : Option OwnedRange :=
    match other.endId.next with
    | some n => if n = r.start then some ⟨other.start, r.endId⟩ else none
    | none => none
  match r.endId.next with
  | some n => if n = other.start then some ⟨r.start, other.endId⟩ else second
  | none => second

/-- `OwnedRange::split_at(other)`.  The outer `Option` is `none` on a panic
(the `assert!(self.contains_range(other))` or the `unwrap()` of
`other.end.next()`); the inner `Except` is the `Result<RecordId, ()>`. -/
def OwnedRange.splitAt (r other : OwnedRange) : Option (Except Unit RecordId) :=
  if !(r.containsRange other) then none
  else if r.start = other.start then
    match other.endId.next with
    | none => none
    | some n => some (.ok n)
  else if r.endId = other.endId then some (.ok other.start)
  else some (.error ())

/-- The outcome of the range-acceptance step of `TransferOut`. -/
inductive TransferOutCheck where
  | transferAll
  | splitAt (point : RecordId)
  | unacceptableRange
  | notOwner
  | panicked
deriving DecidableEq, Repr

/-- Modelled from the spec: the range-acceptance step of the
range-transferring `Handler<TransferOutRequest>` (only its building block
`OwnedRange::split_at` and its agent-facing error vocabulary are among the
sources).  Per the spec, the source must own "a range equal to or
adjacent-containing `range` such that the remainder stays contiguous
(transfer must not split from the middle)"; equality transfers everything;
a contained range is split with `split_at`, whose `Err` — the range being
neither a prefix nor a suffix of the owned range — is reported as
`UnacceptableRange`; a range not contained at all means this group is not
the owner. -/
def transferOutRangeCheck (owned range : OwnedRange) : TransferOutCheck :=
  if range = owned then .transferAll
  else if owned.containsRange range then
    match owned.splitAt range with
    | none => .panicked
    | some (.ok p) => .splitAt p
    | some (.error _) => .unacceptableRange
  else .notOwner

/-- Modelled from the spec: whether the transfer-out handler appends a
`transferring_out` log entry — only when the range check accepts (whole
transfer or split). -/
def transferOutAppendsEntry : TransferOutCheck → Bool
  | .transferAll => true
  | .splitAt _ => true
  | _ => false

end HsmTypes

namespace Entrust

/-!
Embedding of the NVRam layout of `entrust-hsm/src/platform.rs`
(`impl NVRam for NCipher`) together with `MAX_NVRAM_SIZE` from
`hsmcore/src/hal.rs`.  The SEElib transport is assumed to deliver the page
faithfully; `write` below is the page sent to `NVMemOp` write, `read` is
the parsing applied to the page returned by `NVMemOp` read.
-/

/-- `MAX_NVRAM_SIZE` (`hal.rs`). -/
def MAX_NVRAM_SIZE : Nat := 2000

/-- `NCIPHER_NVRAM_LEN`: the fixed page size. -/
def NCIPHER_NVRAM_LEN : Nat := 4096

/-- `NVRAM_LEN_OFFSET = NCIPHER_NVRAM_LEN - 4`: where the `be32` length
trailer starts. -/
def NVRAM_LEN_OFFSET : Nat := NCIPHER_NVRAM_LEN - 4

/-- Errors of the NVRam model (`IOError` carries only a message in the
source; the two distinct failure causes are kept apart here). -/
inductive NVError where
  | dataTooLarge
  | wrongPageSize
deriving DecidableEq, Repr

/-- `NVRam::write` for `NCipher`: reject data above `MAX_NVRAM_SIZE`,
otherwise build the full page — the data, zero padding up to
`NVRAM_LEN_OFFSET` (`data.resize(NVRAM_LEN_OFFSET, 0)`), and the `be32`
data length as the last 4 bytes (`data.extend(&len)`). -/
def nvWrite (data : List Nat) : Except NVError (List Nat) :=
  if data.length > MAX_NVRAM_SIZE then .error .dataTooLarge
  else
    .ok (data ++ List.replicate (NVRAM_LEN_OFFSET - data.length) 0 ++
      ByteSeq.beBytes 4 data.length)

/-- `NVRam::read` for `NCipher`: require a full page, decode the `be32`
length from `data[NVRAM_LEN_OFFSET..NVRAM_LEN_OFFSET+4]`, and truncate the
page to that length. -/
def nvRead (page : List Nat) : Except NVError (List Nat) :=
  if page.length ≠ NCIPHER_NVRAM_LEN then .error .wrongPageSize
  else .ok (page.take (ByteSeq.beVal ((page.drop NVRAM_LEN_OFFSET).take 4)))

end Entrust

namespace Bigtable

/-!
Embedding of `src/realm/store/bigtable.rs`: the log row-key layout
(`DownwardLogIndex`, `log_key`) and `StoreClient::append` with its
conditional (`CheckAndMutateRow`) write of the log row.
Bigtable's single-row transactions make `CheckAndMutateRow` atomic, so
racing appends are serialized by the store; the model applies them in
sequence.
-/

/-- A group id as its raw 16 bytes (`GroupId(pub [u8; 16])`). -/
abbrev GroupBytes := List Nat

/-- `DownwardLogIndex::bytes()`: `(u64::MAX - index).to_be_bytes()`.
A real index is a `u64`, so `index ≤ u64::MAX` and the subtraction never
underflows. -/
def downwardBytes (index : Nat) : List Nat :=
  ByteSeq.beBytes 8 (2 ^ 64 - 1 - index)

/-- `log_key(group, index)`: the group's 16 bytes followed by
`DownwardLogIndex(index).bytes()`. -/
def logKey (group : GroupBytes) (index : Nat) : List Nat :=
  group ++ downwardBytes index

/-- The serialized `LogEntry` fields that `append` inspects; the remaining
fields ride along opaquely in `payload`. -/
structure Entry where
  index : Nat
  prevMac : Nat
  entryMac : Nat
  payload : Nat
deriving DecidableEq, Repr

/-- A `StoreDelta`: Merkle node writes and deferred removes (keys and
values opaque). -/
structure MerkleDelta where
  add : List (Nat × Nat)
  remove : List Nat
deriving DecidableEq, Repr

/-- `Append { entry, delta }`. -/
structure AppendItem where
  entry : Entry
  delta : Option MerkleDelta
deriving DecidableEq, Repr

/-- One log-table row: its cells, keyed by column qualifier
(`DownwardLogIndex(i).bytes()`). -/
abbrev Cells := List (List Nat × Entry)

/-- The shared storage tables: the realm's log table (row key → cells) and
its Merkle table. -/
structure StoreTables where
  logRows : List (List Nat × Cells)
  merkle : List (Nat × Nat)
deriving DecidableEq, Repr

/-- The per-`StoreClient` `last_write` cache:
`(realm, group, index, entry_hmac)`. -/
abbrev LastWrite := Nat × GroupBytes × Nat × Nat

/-- Row lookup by exact key. -/
def rowAt (rows : List (List Nat × Cells)) (key : List Nat) : Option Cells :=
  (rows.find? (fun r => r.1 = key)).map Prod.snd

/-- An ascending `ReadRows` scan over `[lo, hi]` returning the first
emitted row among those with at least one cell of qualifier `q` (a row
whose cells are all filtered out is not emitted; `rows_limit: 1`). -/
def scanFirstWithQualifier (rows : List (List Nat × Cells)) (lo hi q : List Nat) :
    Option (List Nat × Cells) :=
  let inRange := rows.filter (fun r =>
    ByteSeq.lexLe lo r.1 && ByteSeq.lexLe r.1 hi &&
    r.2.any (fun c => c.1 = q))
  inRange.foldl (fun acc r =>
    match acc with
    | none => some r
    | some best => if ByteSeq.lexLt r.1 best.1 then some r else some best) none

/-- `StoreClient::read_log_entry`: scan ascending from `log_key(group,
index)` to `log_key(group, LogIndex::FIRST)` with the column filter
`[downward(index), downward(index)]` and one row, then take that column's
entry. -/
def readLogEntry (rows : List (List Nat × Cells)) (group : GroupBytes)
    (index : Nat) : Option Entry :=
  match scanFirstWithQualifier rows (logKey group index) (logKey group 1)
      (downwardBytes index) with
  | none => none
  | some (_, cells) =>
    (cells.find? (fun c => c.1 = downwardBytes index)).map Prod.snd

/-- `AppendError` (the storage-level outcomes; transport errors
`Grpc`/`MerkleWrites`/`MerkleDeletes` are not modelled). -/
inductive AppendError where
  | logPrecondition
deriving DecidableEq, Repr

/-- The `assert_eq!` chain validation over the batch: each subsequent
entry's index is the predecessor's `+ 1` and its `prev_hmac` is the
predecessor's `entry_hmac`. -/
def batchChainOk : List AppendItem → Bool
  | [] => true
  | [_] => true
  | a :: b :: rest =>
    b.entry.index = a.entry.index + 1 && b.entry.prevMac = a.entry.entryMac &&
    batchChainOk (b :: rest)

/-- The pre-append check of `append`: for a batch not starting at
`LogIndex::FIRST`, the previous log entry must exist and carry the expected
MAC, consulting the client's `last_write` cache first.  `none` models the
panic of `prev().unwrap()` at index 0; otherwise `true` means the check
passed and the append may proceed. -/
def prevCheck (cache : Option LastWrite) (rows : List (List Nat × Cells))
    (realm : Nat) (group : GroupBytes) (first : Entry) : Option Bool :=
  if first.index = 1 then some true
  else if first.index = 0 then none
  else
    let prevIndex := first.index - 1
    match cache with
    | some (cRealm, cGroup, cIndex, cMac) =>
      if cRealm = realm ∧ cGroup = group ∧ cIndex = prevIndex then
        some (cMac = first.prevMac)
      else
        match readLogEntry rows group prevIndex with
        | some prev => some (prev.entryMac = first.prevMac)
        | none => some false
    | none =>
      match readLogEntry rows group prevIndex with
      | some prev => some (prev.entryMac = first.prevMac)
      | none => some false

/-- `StoreClient::append`.  Returns `none` on a panic (empty batch, index-0
underflow, or a batch failing the `assert_eq!` chain checks); otherwise the
result together with the updated client cache and tables.  The Merkle
`add` sets are written before the conditional log write and therefore
persist even when it fails; the deferred deletes run as a detached task
and are not part of the synchronous effect. -/
def append (cache : Option LastWrite) (tab : StoreTables) (realm : Nat)
    (group : GroupBytes) (items : List AppendItem) :
    Option (Except AppendError Unit × Option LastWrite × StoreTables) :=
  match items.head? with
  | none => none
  | some firstItem =>
    match prevCheck cache tab.logRows realm group firstItem.entry with
    | none => none
    | some false => some (.error .logPrecondition, cache, tab)
    | some true =>
      if !batchChainOk items then none
      else
        let newMerkle := items.filterMap (fun i => i.delta.map MerkleDelta.add)
        let tab1 : StoreTables := { tab with merkle := tab.merkle ++ newMerkle.flatten }
        let key := logKey group firstItem.entry.index
        if (rowAt tab1.logRows key).isSome then
          some (.error .logPrecondition, cache, tab1)
        else
          let cells : Cells :=
            items.map (fun i => (downwardBytes i.entry.index, i.entry))
          let tab2 : StoreTables := { tab1 with logRows := tab1.logRows ++ [(key, cells)] }
          match items.getLast? with
          | none => none
          | some lastItem =>
            some (.ok (),
              some (realm, group, lastItem.entry.index, lastItem.entry.entryMac),
              tab2)

end Bigtable

namespace Cluster

/-!
Embedding of `cluster_core/src/transfer.rs`: the coordinator's `transfer`
procedure as a pure executor.  The network is an oracle giving, per loop
attempt, the leaders found and each RPC's response; the executor records
the externally visible actions as a trace of events.  The
`CancelPrepareGuard` appends a `cancel` action on exit while `cancelable`
is still set.  Rust panics (`unreachable!`/`panic!`) unwind and therefore
still run the guard's `Drop`; they yield a `none` result.
-/

/-- `PrepareTransferResponse` variants (`agent_api`); `Ok` payloads
(nonce, statement) are opaque to the coordinator's control flow. -/
inductive PrepareResp where
  | ok
  | invalidRealm
  | invalidGroup
  | unacceptableRange
  | otherTransferPending
  | noStore
  | noHsm
  | notLeader
  | commitTimeout
deriving DecidableEq, Repr

/-- `TransferOutResponse` variants (`agent_api`). -/
inductive OutResp where
  | ok
  | noStore
  | noHsm
  | invalidRealm
  | invalidGroup
  | notLeader
  | notOwner
  | invalidProof
  | unacceptableRange
  | otherTransferPending
  | invalidStatement
  | commitTimeout
deriving DecidableEq, Repr

/-- `TransferInResponse` variants (`agent_api`). -/
inductive TinResp where
  | ok
  | noHsm
  | invalidRealm
  | invalidGroup
  | notLeader
  | unacceptableRange
  | invalidNonce
  | invalidStatement
  | notPrepared
  | noStore
  | notOwner
  | commitTimeout
deriving DecidableEq, Repr

/-- `CompleteTransferResponse` variants (`agent_api`). -/
inductive CompleteResp where
  | ok
  | noHsm
  | invalidRealm
  | invalidGroup
  | notLeader
  | notTransferring
  | commitTimeout
deriving DecidableEq, Repr

/-- `TransferError` (`cluster_api`; the enum itself is not among the
sources — its variants are those constructed in `transfer.rs`, with the
`RpcError` payload dropped). -/
inductive TransferError where
  | invalidGroup
  | noSourceLeader
  | noDestinationLeader
  | tooManyRetries
  | otherTransferPending
  | unacceptableRange
  | commitTimeout
  | noStore
  | invalidNonce
  | rpcError
deriving DecidableEq, Repr

/-- An RPC's outcome: the agent's response, or a transport error
(`Err(error)` from `rpc::send`, payload dropped). -/
inductive Rpc' (α : Type) where
  | ok (r : α)
  | netErr
deriving DecidableEq, Repr

/-- The procedure's `Result<(), TransferError>`. -/
inductive TransferResult where
  | ok
  | err (e : TransferError)
deriving DecidableEq, Repr

/-- What the environment does on one loop attempt: whether leaders were
found for the source and the destination group, and each RPC's outcome
(consulted only if that RPC is reached). -/
structure AttemptOracle where
  sourceLeader : Bool
  destLeader : Bool
  prepare : Rpc' PrepareResp
  out : Rpc' OutResp
  tin : Rpc' TinResp
  complete : Rpc' CompleteResp
deriving DecidableEq, Repr

/-- The externally visible actions of the procedure. -/
inductive Event where
  | findLeaders
  | prepare (r : Rpc' PrepareResp)
  | out (r : Rpc' OutResp)
  | tin (r : Rpc' TinResp)
  | complete (r : Rpc' CompleteResp)
  | cancel
deriving DecidableEq, Repr

/-- `TransferState`. -/
inductive TState where
  | transferring
  | completing
deriving DecidableEq, Repr

/-- The procedure's observable outcome: `none` models a panic, otherwise
the returned `Result`, together with the action trace. -/
structure Outcome where
  result : Option TransferResult
  trace : List Event
deriving DecidableEq, Repr

/-- Exit the procedure: the guard's `Drop` issues the cancel RPC iff still
`cancelable`. -/
def finish (cancelable : Bool) (trace : List Event)
    (result : Option TransferResult) : Outcome :=
  ⟨result, if cancelable then trace ++ [.cancel] else trace⟩

/-- What one phase of the loop body decides. -/
inductive StepRes where
  | done (cancelable : Bool) (trace : List Event)
      (result : Option TransferResult)
  | retry (state : TState) (err : TransferError) (cancelable : Bool)
      (trace : List Event)
  | toCompleting (cancelable : Bool) (trace : List Event)
deriving DecidableEq, Repr

/-- The `TransferState::Transferring` block: `PrepareTransfer` at the
destination, `TransferOut` at the source (success disarms the cancel
guard; `CommitTimeout` also disarms it, because the source entry may still
commit), then `TransferIn` at the destination. -/
def transferringPhase (o : AttemptOracle) (cancelable : Bool)
    (trace : List Event) : StepRes :=
  let trace := trace ++ [.prepare o.prepare]
  match o.prepare with
  | .netErr => .retry .transferring .rpcError cancelable trace
  | .ok .invalidRealm => .done cancelable trace none
  | .ok .invalidGroup => .done cancelable trace (some (.err .invalidGroup))
  | .ok .otherTransferPending =>
    .done cancelable trace (some (.err .otherTransferPending))
  | .ok .unacceptableRange =>
    .done cancelable trace (some (.err .unacceptableRange))
  | .ok .commitTimeout => .done cancelable trace (some (.err .commitTimeout))
  | .ok .noStore => .done cancelable trace (some (.err .noStore))
  | .ok .noHsm => .retry .transferring .noDestinationLeader cancelable trace
  | .ok .notLeader => .retry .transferring .noDestinationLeader cancelable trace
  | .ok .ok =>
    let trace := trace ++ [.out o.out]
    match o.out with
    | .netErr => .retry .transferring .rpcError cancelable trace
    | .ok .unacceptableRange =>
      .done cancelable trace (some (.err .unacceptableRange))
    | .ok .invalidGroup => .done cancelable trace (some (.err .invalidGroup))
    | .ok .otherTransferPending =>
      .done cancelable trace (some (.err .otherTransferPending))
    | .ok .commitTimeout => .done false trace (some (.err .commitTimeout))
    | .ok .noStore => .done cancelable trace (some (.err .noStore))
    | .ok .notOwner => .retry .transferring .noSourceLeader cancelable trace
    | .ok .noHsm => .retry .transferring .noSourceLeader cancelable trace
    | .ok .notLeader => .retry .transferring .noSourceLeader cancelable trace
    | .ok .invalidProof => .done cancelable trace none
    | .ok .invalidRealm => .done cancelable trace none
    | .ok .invalidStatement => .done cancelable trace none
    | .ok .ok =>
      let cancelable := false
      let trace := trace ++ [.tin o.tin]
      match o.tin with
      | .netErr => .retry .transferring .rpcError cancelable trace
      | .ok .ok => .toCompleting cancelable trace
      | .ok .commitTimeout => .done cancelable trace (some (.err .commitTimeout))
      | .ok .notPrepared => .done cancelable trace none
      | .ok .invalidStatement => .done cancelable trace none
      | .ok .invalidGroup => .done cancelable trace none
      | .ok .invalidRealm => .done cancelable trace none
      | .ok .unacceptableRange => .done cancelable trace none
      | .ok .invalidNonce => .retry .transferring .invalidNonce cancelable trace
      | .ok .noStore => .retry .transferring .noStore cancelable trace
      | .ok .noHsm => .retry .transferring .noDestinationLeader cancelable trace
      | .ok .notLeader =>
        .retry .transferring .noDestinationLeader cancelable trace
      | .ok .notOwner => .retry .transferring .noDestinationLeader cancelable trace

/-- The `TransferState::Completing` block: `CompleteTransfer` at the
source (`NotTransferring` counts as success: the transfer had already
completed). -/
def completingPhase (o : AttemptOracle) (cancelable : Bool)
    (trace : List Event) : StepRes :=
  let trace := trace ++ [.complete o.complete]
  match o.complete with
  | .netErr => .retry .completing .rpcError cancelable trace
  | .ok .ok => .done cancelable trace (some .ok)
  | .ok .commitTimeout => .done cancelable trace (some (.err .commitTimeout))
  | .ok .noHsm => .retry .completing .noSourceLeader cancelable trace
  | .ok .notLeader => .retry .completing .noSourceLeader cancelable trace
  | .ok .invalidRealm => .done cancelable trace none
  | .ok .invalidGroup => .done cancelable trace none
  | .ok .notTransferring => .done cancelable trace (some .ok)

/-- The retry loop (`tries` counts up to 20; `fuel = 21 - tries`). -/
def loopGo (oracle : Nat → AttemptOracle) : Nat → Nat → TState →
    Option TransferError → Bool → List Event → Outcome
  | 0, _, _, lastError, cancelable, trace =>
    finish cancelable trace (some (.err (lastError.getD .tooManyRetries)))
  | fuel + 1, attempt, state, _lastError, cancelable, trace =>
    let o := oracle attempt
    let trace := trace ++ [.findLeaders]
    if !o.sourceLeader then
      loopGo oracle fuel (attempt + 1) state (some .noSourceLeader) cancelable trace
    else if !o.destLeader then
      loopGo oracle fuel (attempt + 1) state (some .noDestinationLeader) cancelable
        trace
    else
      let afterTransferring : StepRes :=
        match state with
        | .transferring => transferringPhase o cancelable trace
        | .completing => .toCompleting cancelable trace
      match afterTransferring with
      | .done c tr res => finish c tr res
      | .retry st err c tr => loopGo oracle fuel (attempt + 1) st (some err) c tr
      | .toCompleting c tr =>
        match completingPhase o c tr with
        | .done c2 tr2 res => finish c2 tr2 res
        | .retry st2 err2 c2 tr2 =>
          loopGo oracle fuel (attempt + 1) st2 (some err2) c2 tr2
        | .toCompleting c2 tr2 => finish c2 tr2 none

/-- `transfer`: the same-group early return happens before the cancel
guard is installed and before any RPC; then the bounded retry loop runs
with the guard armed. -/
def transfer (oracle : Nat → AttemptOracle) (source destination : Nat) : Outcome :=
  if source = destination then ⟨some (.err .invalidGroup), []⟩
  else loopGo oracle 20 1 .transferring none true []

end Cluster

namespace AgentApi

/-!
Embedding of `HashedUserId::new` from `agent_api/src/lib.rs`.  Strings are
modelled as their UTF-8 byte sequences (`List Nat`); the `sha2` crate's
streaming `Digest` API is modelled over an arbitrary digest function
`digestFn`: the hasher state is extensionally the byte sequence absorbed so
far, and `finalize` applies the digest to it.
-/

/-- The byte value of `':'`. -/
def colon : Nat := 58

/-- The streaming SHA-256 hasher state (`Sha256::new()` and the absorbed
bytes of the `chain_update` calls so far). -/
structure Sha256State where
  absorbed : List Nat
deriving DecidableEq, Repr

/-- `Sha256::new()`. -/
def Sha256State.new : Sha256State := ⟨[]⟩

/-- `Digest::chain_update`. -/
def Sha256State.chainUpdate (st : Sha256State) (bytes : List Nat) : Sha256State :=
  ⟨st.absorbed ++ bytes⟩

/-- `Digest::finalize` under the digest function `digestFn`. -/
def Sha256State.finalize (digestFn : List Nat → List Nat) (st : Sha256State) :
    List Nat :=
  digestFn st.absorbed

/-- One lowercase hexadecimal digit: `'0'..'9'` for 0–9, `'a'..'f'` for
10–15. -/
def hexDigit (n : Nat) : Char :=
  if n < 10 then Char.ofNat (48 + n) else Char.ofNat (87 + n)

/-- `hex::encode`: two lowercase hex digits per byte, high nibble first. -/
def hexEncode (bytes : List Nat) : List Char :=
  bytes.flatMap (fun b => [hexDigit (b / 16), hexDigit (b % 16)])

/-- Whether a character is a lowercase hexadecimal digit. -/
def isLowerHexDigit (c : Char) : Bool :=
  (48 ≤ c.toNat && c.toNat ≤ 57) || (97 ≤ c.toNat && c.toNat ≤ 102)

/-- Decode two hex characters back to nibble values and recombine
(inverse of `hexEncode` on byte inputs). -/
def hexDigitVal (c : Char) : Nat :=
  if c.toNat ≥ 97 then c.toNat - 87 else c.toNat - 48

/-- Inverse of `hexEncode`: recombine consecutive digit pairs. -/
def hexDecode : List Char → List Nat
  | hi :: lo :: rest => (hexDigitVal hi * 16 + hexDigitVal lo) :: hexDecode rest
  | _ => []

/-- `HashedUserId::new(tenant, user)`: panics (`assert!`) when the tenant
contains `':'` (modelled as `none`), else the lowercase hex encoding of the
digest of `tenant`, `':'`, `user` fed in through three `chain_update`
calls. -/
def hashedUserIdNew (digestFn : List Nat → List Nat) (tenant user : List Nat) :
    Option (List Char) :=
  if tenant.contains colon then none
  else
    some (hexEncode
      (((Sha256State.new.chainUpdate tenant).chainUpdate [colon]).chainUpdate user
        |>.finalize digestFn))

/-- Stated from the spec: the lowercase hexadecimal encoding of the digest
of the single concatenation `tenant || ':' || user`. -/
def specHashedUserId (digestFn : List Nat → List Nat) (tenant user : List Nat) :
    List Char :=
  hexEncode (digestFn (tenant ++ colon :: user))

end AgentApi

namespace HsmCore

/-- Fixture: the MAC of the genesis entry of the fixture group. -/
def c2Mac : EntryHmac := .mac ⟨0⟩ ⟨0⟩ ⟨0⟩ 1 none none .zero

/-- Fixture: a chain-extending entry at index 2. -/
def c2Entry : LogEntry := ⟨2, none, none, c2Mac, .mac ⟨0⟩ ⟨0⟩ ⟨0⟩ 2 none none c2Mac⟩

/-- Fixture: a `CaptureNext` request carrying `c2Entry`. -/
def c2Req : CaptureNextRequest := ⟨⟨0⟩, ⟨0⟩, c2Entry⟩

/-- Fixture: an HSM that joined realm 0 and group 0 and captured entry 1. -/
def c2State : Hsm :=
  ⟨⟨⟨0⟩, ⟨0⟩, some ⟨⟨0⟩, [(⟨0⟩, ⟨[⟨0⟩], some (1, c2Mac)⟩)]⟩⟩, ⟨[]⟩⟩

/-- Fixture: the genesis log entry matching `c2Mac`. -/
def c1Entry : LogEntry := ⟨1, none, none, .zero, c2Mac⟩

/-- Fixture: an HSM leading group 0 with a pending response for entry 1 and
its own capture of entry 1. -/
def c1State : Hsm :=
  ⟨⟨⟨0⟩, ⟨0⟩, some ⟨⟨0⟩, [(⟨0⟩, ⟨[⟨0⟩], some (1, c2Mac)⟩)]⟩⟩,
   ⟨[(⟨0⟩, ⟨[⟨c1Entry, none, some ⟨5⟩⟩], none, none⟩)]⟩⟩

/-- Fixture: a commit of entry 1 relying on the self-capture alone. -/
def c1Req : CommitRequest := ⟨⟨0⟩, ⟨0⟩, 1, c2Mac, []⟩

/-- Fixture: a trivial app-layer processor. -/
def ap0 : AppProcess := fun _ _ => (⟨0⟩, none)

/-- Fixture: the command output of capturing `c2Entry` on `c2State`. -/
def c3Out : Response × Hsm :=
  (.captureNext (.ok ⟨0⟩
      (.mac ⟨0⟩ ⟨0⟩ ⟨0⟩ ⟨0⟩ 2 (.mac ⟨0⟩ ⟨0⟩ ⟨0⟩ 2 none none c2Mac))),
   ⟨⟨⟨0⟩, ⟨0⟩, some ⟨⟨0⟩,
       [(⟨0⟩, ⟨[⟨0⟩], some (2, .mac ⟨0⟩ ⟨0⟩ ⟨0⟩ 2 none none c2Mac)⟩)]⟩⟩, ⟨[]⟩⟩)

end HsmCore

namespace Bigtable

/-- Fixture: the zero group id. -/
def c4G : GroupBytes := List.replicate 16 0

/-- Fixture: two distinct entries contending for index 1. -/
def c4EntryA : Entry := ⟨1, 0, 10, 0⟩

/-- Fixture: the competing entry. -/
def c4EntryB : Entry := ⟨1, 0, 20, 0⟩

/-- Fixture: agent A's batch. -/
def c4ItemsA : List AppendItem := [⟨c4EntryA, none⟩]

/-- Fixture: agent B's batch. -/
def c4ItemsB : List AppendItem := [⟨c4EntryB, none⟩]

/-- Fixture: the empty store. -/
def c4Tab0 : StoreTables := ⟨[], []⟩

/-- Fixture: the store after A's append. -/
def c4TabA : StoreTables := ⟨[(logKey c4G 1, [(downwardBytes 1, c4EntryA)])], []⟩

/-- Fixture: the store B's append alone would have produced. -/
def c4TabB : StoreTables := ⟨[(logKey c4G 1, [(downwardBytes 1, c4EntryB)])], []⟩

end Bigtable

namespace HsmCore

theorem alGet_alPut_self {κ α : Type} [DecidableEq κ] (l : List (κ × α)) (k : κ)
    (v : α) : alGet (alPut l k v) k = some v := by
  induction l with
  | nil => simp [alPut, alGet]
  | cons p rest ih =>
    obtain ⟨k0, v0⟩ := p
    by_cases h : k0 = k <;> simp [alPut, alGet, h, ih]

theorem alGet_alPut_ne {κ α : Type} [DecidableEq κ] (l : List (κ × α)) (k k' : κ)
    (v : α) (h : k' ≠ k) : alGet (alPut l k v) k' = alGet l k' := by
  have h2 : ¬k = k' := fun hh => h hh.symm
  induction l with
  | nil => simp [alPut, alGet, h2]
  | cons p rest ih =>
    obtain ⟨k0, v0⟩ := p
    by_cases h0 : k0 = k
    · subst h0
      simp [alPut, alGet, h2]
    · by_cases h1 : k0 = k' <;> simp [alPut, alGet, h0, h1, ih, h]

/-- C2: for a `CaptureNext` on an HSM that has joined the realm and is a
member of the group, with a verifying entry MAC: `Ok` is returned exactly
for the chain-extending entry (index 1 with zero `prev_mac` when nothing is
captured yet, index `i + 1` with `prev_mac = m` for a prior capture
`(i, m)`); a wrong index gives `MissingPrev`, a matching index with a
mismatched `prev_mac` gives `InvalidChain`, and both failures leave the
state (hence the captured pair) unchanged. -/
theorem captureNext_chain_rule (s : Hsm) (req : CaptureNextRequest)
    (realm : PersistentRealmState) (group : PersistentGroupState)
    (hR : s.persistent.realm = some realm)
    (hId : realm.id = req.realm)
    (hG : alGet realm.groups req.group = some group)
    (hMac : req.entry.entryHmac = EntryHmac.mac s.persistent.realmKey req.realm
      req.group req.entry.index req.entry.partition req.entry.transferringOut
      req.entry.prevHmac) :
    (isOkCN (handleCaptureNext s req).1 = true ↔
      (req.entry.index = expectedIndex group.captured ∧
       req.entry.prevHmac = expectedPrev group.captured)) ∧
    (req.entry.index ≠ expectedIndex group.captured →
      handleCaptureNext s req = (.missingPrev, s)) ∧
    (req.entry.index = expectedIndex group.captured →
      req.entry.prevHmac ≠ expectedPrev group.captured →
      handleCaptureNext s req = (.invalidChain, s)) := by
  have hv : verifyEntry s.persistent.realmKey req.realm req.group req.entry.index
      req.entry.partition req.entry.transferringOut req.entry.prevHmac
      req.entry.entryHmac = true := by
    simp [verifyEntry, hMac]
  rcases hcap : group.captured with _ | ⟨ci, cm⟩ <;>
    by_cases h1 : req.entry.index = expectedIndex group.captured <;>
    by_cases h2 : req.entry.prevHmac = expectedPrev group.captured <;>
    simp_all [handleCaptureNext, hR, hId, hv, hG, expectedIndex, expectedPrev,
      isOkCN]

/-- The commit handler's `HashSet` count equals the claim's count over the
configuration, provided this HSM is itself a configuration member (true in
every reachable state: `NewRealm`, `NewGroup` and `JoinGroup` all require
it) and the configuration has no duplicates (enforced by
`Configuration::is_ok` at creation). -/
theorem commit_count_eq (s : Hsm) (req : CommitRequest)
    (group : PersistentGroupState)
    (hSelf : s.persistent.id ∈ group.configuration)
    (hNodup : group.configuration.Nodup) :
    ((commitVerifiedIds s req group ++ commitSelfChain s req group).dedup).length
      = commitClaimCount s req group := by
  classical
  have hmem : ∀ h : HsmId,
      h ∈ commitVerifiedIds s req group ++ commitSelfChain s req group ↔
        h ∈ group.configuration ∧
          ((req.captures.any (fun p => p.1 = h ∧
              p.2 = CapturedStatement.mac s.persistent.realmKey h req.realm
                req.group req.index req.entryHmac)) ||
            (h = s.persistent.id &&
              group.captured = some (req.index, req.entryHmac))) = true := by
    intro h
    constructor
    · intro hh
      rcases List.mem_append.mp hh with hv | hs
      · simp only [commitVerifiedIds, List.mem_map, List.mem_filter] at hv
        obtain ⟨p, ⟨hpmem, hcond⟩, hph⟩ := hv
        rw [Bool.and_eq_true, decide_eq_true_eq] at hcond
        obtain ⟨hc1, hc2⟩ := hcond
        subst hph
        refine ⟨by simpa using hc1, ?_⟩
        rw [Bool.or_eq_true]
        left
        rw [List.any_eq_true]
        exact ⟨p, hpmem, by simp [hc2]⟩
      · rcases hcap : group.captured with _ | ⟨ci, cm⟩ <;>
          simp only [commitSelfChain, hcap] at hs
        · simp at hs
        · by_cases hmatch : ci = req.index ∧ cm = req.entryHmac
          · rw [if_pos hmatch] at hs
            simp only [List.mem_singleton] at hs
            subst hs
            refine ⟨hSelf, ?_⟩
            rw [Bool.or_eq_true]
            right
            simp [hmatch.1, hmatch.2]
          · rw [if_neg hmatch] at hs
            simp at hs
    · rintro ⟨hcfg, hp⟩
      rw [Bool.or_eq_true] at hp
      rcases hp with hany | hself
      · rw [List.any_eq_true] at hany
        obtain ⟨p, hpmem, hcond⟩ := hany
        rw [decide_eq_true_eq] at hcond
        obtain ⟨hph, hstmt⟩ := hcond
        refine List.mem_append.mpr (Or.inl ?_)
        simp only [commitVerifiedIds, List.mem_map, List.mem_filter]
        refine ⟨p, ⟨hpmem, ?_⟩, hph⟩
        rw [Bool.and_eq_true, decide_eq_true_eq]
        exact ⟨by simpa [hph] using hcfg, by rw [hph]; exact hstmt⟩
      · rw [Bool.and_eq_true, decide_eq_true_eq, decide_eq_true_eq] at hself
        obtain ⟨hh, hcap⟩ := hself
        refine List.mem_append.mpr (Or.inr ?_)
        simp [commitSelfChain, hcap, hh]
  have hfin : (commitVerifiedIds s req group ++ commitSelfChain s req group).toFinset
      = (group.configuration.filter (fun h =>
          (req.captures.any (fun p => p.1 = h ∧
              p.2 = CapturedStatement.mac s.persistent.realmKey h req.realm
                req.group req.index req.entryHmac)) ||
            (h = s.persistent.id &&
              group.captured = some (req.index, req.entryHmac)))).toFinset := by
    apply Finset.ext
    intro h
    rw [List.mem_toFinset, List.mem_toFinset, List.mem_filter]
    exact hmem h
  have hlhs : ((commitVerifiedIds s req group ++
      commitSelfChain s req group).dedup).length =
      (commitVerifiedIds s req group ++ commitSelfChain s req group).toFinset.card := by
    rw [List.card_toFinset]
  rw [hlhs, hfin, commitClaimCount, List.dedup_eq_self.mpr hNodup]
  exact List.toFinset_card_of_nodup (hNodup.filter _)

/-- The commit tail agrees with the claim's description of it, given the
membership and no-duplicates invariants. -/
theorem commitCore_eq_spec (s : Hsm) (req : CommitRequest)
    (group : PersistentGroupState) (leader : LeaderVolatileGroupState)
    (hSelf : s.persistent.id ∈ group.configuration)
    (hNodup : group.configuration.Nodup) :
    commitCore s req group leader = commitSpecCore s req group leader := by
  unfold commitCore commitSpecCore
  rw [commit_count_eq s req group hSelf hNodup]

/-- C1: `Handler<CommitRequest>` implements the claim's commit rule: it
answers `AlreadyCommitted` with the current commit index and no state
change when `index` is already committed, and otherwise advances to
`index` and releases exactly the pending responses of entries `≤ index`
precisely when the distinct configuration members that supplied a
verifying `CapturedStatement` for `(index, entry_mac)` — or are this HSM
itself with a matching persistent capture — form a strict majority of the
configuration, answering `NoQuorum` with no state change otherwise.  The
hypothesis is the reachable-state invariant that this HSM is a member of
any configuration it stores, with no duplicate ids. -/
theorem commit_matches_claim (s : Hsm) (req : CommitRequest)
    (hInv : ∀ realm group, s.persistent.realm = some realm →
      alGet realm.groups req.group = some group →
      s.persistent.id ∈ group.configuration ∧ group.configuration.Nodup) :
    handleCommit s req = commitSpecModel s req := by
  rcases hR : s.persistent.realm with _ | realm
  · simp [handleCommit, commitSpecModel, hR]
  · rcases hG : alGet realm.groups req.group with _ | group
    · simp [handleCommit, commitSpecModel, hR, hG]
    · obtain ⟨hSelf, hNodup⟩ := hInv realm group hR hG
      rcases hL : alGet s.volatile.leader req.group with _ | leader
      · simp [handleCommit, commitSpecModel, hR, hG, hL]
      · rcases hC : leader.committed with _ | c
        · simp [handleCommit, commitSpecModel, hR, hG, hL, hC,
            commitCore_eq_spec s req group leader hSelf hNodup]
        · by_cases hge : c ≥ req.index <;>
            simp [handleCommit, commitSpecModel, hR, hG, hL, hC, hge,
              commitCore_eq_spec s req group leader hSelf hNodup]

/-- C1 witness: a leader of a one-member group commits entry 1 through its
own capture. -/
theorem commit_matches_claim_witness :
    handleCommit c1State c1Req = commitSpecModel c1State c1Req :=
  commit_matches_claim c1State c1Req (by
    intro realm group hR hG
    have h1 : (⟨⟨0⟩, [(⟨0⟩, ⟨[⟨0⟩], some (1, c2Mac)⟩)]⟩ : PersistentRealmState)
        = realm := by
      simpa [c1State] using hR
    subst h1
    have h2 : (⟨[⟨0⟩], some (1, c2Mac)⟩ : PersistentGroupState) = group := by
      simpa [alGet, c1Req] using hG
    subst h2
    exact ⟨by decide, by decide⟩)

theorem capturedOf_eq_of_persistent {s s' : Hsm}
    (h : s'.persistent = s.persistent) (g : GroupId) :
    capturedOf s' g = capturedOf s g := by
  unfold capturedOf
  rw [h]

theorem handleStatus_persistent (s : Hsm) (p : StatusResponse × Hsm)
    (h : handleStatus s = some p) : p.2.persistent = s.persistent := by
  unfold handleStatus at h
  split at h
  · cases h; rfl
  · split at h
    · cases h
    · cases h; rfl

theorem handleBecomeLeader_persistent (s : Hsm) (req : BecomeLeaderRequest) :
    (handleBecomeLeader s req).2.persistent = s.persistent := by
  unfold handleBecomeLeader
  repeat' split
  all_goals rfl

theorem handleReadCaptured_persistent (s : Hsm) (req : ReadCapturedRequest) :
    (handleReadCaptured s req).2.persistent = s.persistent := by
  unfold handleReadCaptured
  repeat' split
  all_goals rfl

theorem commitCore_persistent (s : Hsm) (req : CommitRequest)
    (group : PersistentGroupState) (leader : LeaderVolatileGroupState) :
    (commitCore s req group leader).2.persistent = s.persistent := by
  by_cases hc : ((commitVerifiedIds s req group ++
      commitSelfChain s req group).dedup).length >
      group.configuration.length / 2 <;>
    simp [commitCore, hc]

theorem handleCommit_persistent (s : Hsm) (req : CommitRequest) :
    (handleCommit s req).2.persistent = s.persistent := by
  unfold handleCommit
  repeat' split
  all_goals first
    | rfl
    | apply commitCore_persistent

theorem transferOutSplit_persistent (s : Hsm) (req : TransferOutRequest)
    (leader : LeaderVolatileGroupState) (lastEntry : LogEntry)
    (p : TransferOutResponse × Hsm)
    (h : transferOutSplit s req leader lastEntry = some p) :
    p.2.persistent = s.persistent := by
  unfold transferOutSplit at h
  repeat' split at h
  all_goals (cases h <;> rfl)

theorem handleTransferOut_persistent (s : Hsm) (req : TransferOutRequest)
    (p : TransferOutResponse × Hsm) (h : handleTransferOut s req = some p) :
    p.2.persistent = s.persistent := by
  unfold handleTransferOut at h
  repeat' split at h
  all_goals first
    | (cases h <;> rfl)
    | exact transferOutSplit_persistent _ _ _ _ _ h

theorem handleTransferNonce_persistent (s : Hsm) (req : TransferNonceRequest)
    (nonce : TransferNonce) :
    (handleTransferNonce s req nonce).2.persistent = s.persistent := by
  unfold handleTransferNonce
  repeat' split
  all_goals rfl

theorem handleTransferStatement_persistent (s : Hsm)
    (req : TransferStatementRequest) (p : TransferStatementResponse × Hsm)
    (h : handleTransferStatement s req = some p) :
    p.2.persistent = s.persistent := by
  unfold handleTransferStatement at h
  repeat' split at h
  all_goals (cases h <;> rfl)

theorem transferInAccept_persistent (s : Hsm) (req : TransferInRequest)
    (leader1 : LeaderVolatileGroupState) (p : TransferInResponse × Hsm)
    (h : transferInAccept s req leader1 = some p) :
    p.2.persistent = s.persistent := by
  unfold transferInAccept at h
  repeat' split at h
  all_goals (cases h <;> rfl)

theorem handleTransferIn_persistent (s : Hsm) (req : TransferInRequest)
    (p : TransferInResponse × Hsm) (h : handleTransferIn s req = some p) :
    p.2.persistent = s.persistent := by
  unfold handleTransferIn at h
  repeat' split at h
  all_goals first
    | (cases h <;> rfl)
    | exact transferInAccept_persistent _ _ _ _ h

theorem handleCompleteTransfer_persistent (s : Hsm)
    (req : CompleteTransferRequest) (p : CompleteTransferResponse × Hsm)
    (h : handleCompleteTransfer s req = some p) :
    p.2.persistent = s.persistent := by
  unfold handleCompleteTransfer at h
  repeat' split at h
  all_goals (cases h <;> rfl)


theorem handleApp_persistent (ap : AppProcess) (s : Hsm) (req : AppRequest)
    (p : AppResponse × Hsm) (h : handleApp ap s req = some p) :
    p.2.persistent = s.persistent := by
  unfold handleApp at h
  repeat' split at h
  all_goals try cases h
  all_goals try rfl
  rcases happ : handleAppRequest ap req s.persistent _ with _ | q <;>
    rw [happ] at h <;> simp only [Option.map] at h
  · cases h
  · cases h
    rfl

theorem createNewGroup_captured (s : Hsm) (realm : RealmId) (cfg : Configuration)
    (ob : Option OwnedBits) (gid : GroupId) (p : NewGroupInfo × Hsm)
    (h : createNewGroup s realm cfg ob gid = some p) (g : GroupId) :
    capturedOf p.2 g = capturedOf s g := by
  unfold createNewGroup at h
  rcases hR : s.persistent.realm with _ | realmState <;> simp only [hR] at h
  · cases h
  · by_cases hg : (alGet realmState.groups gid).isSome
    · simp only [if_pos hg] at h; cases h
    · simp only [if_neg hg] at h
      cases h
      rw [Option.not_isSome_iff_eq_none] at hg
      by_cases hgg : g = gid
      · subst hgg
        simp [capturedOf, hR, hg, alGet_alPut_self]
      · simp [capturedOf, hR, alGet_alPut_ne _ _ _ _ hgg]

theorem handleNewRealm_captured (s : Hsm) (req : NewRealmRequest)
    (rid : RealmId) (gid : GroupId) (p : NewRealmResponse × Hsm)
    (h : handleNewRealm s req rid gid = some p) (g : GroupId) :
    capturedOf p.2 g = capturedOf s g := by
  unfold handleNewRealm at h
  split at h
  · cases h; rfl
  · split at h
    · cases h; rfl
    · rename_i h1 h2
      rw [Option.not_isSome_iff_eq_none] at h1
      rcases hc : createNewGroup
          ⟨⟨s.persistent.id, s.persistent.realmKey, some ⟨rid, []⟩⟩, s.volatile⟩
          rid req.configuration (some OwnedBits.full) gid with _ | q <;>
        rw [hc] at h
      · cases h
      · cases h
        rw [createNewGroup_captured _ _ _ _ _ _ hc g]
        simp [capturedOf, h1, alGet]

theorem handleJoinRealm_captured (s : Hsm) (req : JoinRealmRequest) (g : GroupId) :
    capturedOf (handleJoinRealm s req).2 g = capturedOf s g := by
  unfold handleJoinRealm
  rcases hR : s.persistent.realm with _ | realm
  · simp [capturedOf, hR, alGet]
  · by_cases hid : realm.id = req.realm <;> simp [hid]

theorem handleNewGroup_captured (s : Hsm) (req : NewGroupRequest)
    (gid : GroupId) (p : NewGroupResponse × Hsm)
    (h : handleNewGroup s req gid = some p) (g : GroupId) :
    capturedOf p.2 g = capturedOf s g := by
  unfold handleNewGroup at h
  split at h
  · cases h; rfl
  · split at h
    · cases h; rfl
    · split at h
      · cases h; rfl
      · rcases hc : createNewGroup s req.realm req.configuration none gid
            with _ | q <;> rw [hc] at h
        · cases h
        · cases h
          exact createNewGroup_captured _ _ _ _ _ _ hc g

theorem handleJoinGroup_captured (s : Hsm) (req : JoinGroupRequest) (g : GroupId) :
    capturedOf (handleJoinGroup s req).2 g = capturedOf s g := by
  unfold handleJoinGroup
  rcases hR : s.persistent.realm with _ | realm
  · rfl
  · by_cases hid : realm.id ≠ req.realm
    · simp [hid]
    · by_cases hst : req.statement ≠ GroupConfigurationStatement.mac
          s.persistent.realmKey req.realm req.group req.configuration
      · simp [hid, hst]
      · by_cases hcfg : (configurationIsOk req.configuration &&
            req.configuration.contains s.persistent.id) = true
        · have hcfg2 : ¬(configurationIsOk req.configuration = false ∨
              s.persistent.id ∉ req.configuration) := by
            rw [Bool.and_eq_true] at hcfg
            rintro (hF | hN)
            · rw [hcfg.1] at hF; cases hF
            · exact hN (by simpa using hcfg.2)
          rcases hg : alGet realm.groups req.group with _ | group
          · by_cases hgg : g = req.group
            · subst hgg
              simp [hid, hst, hcfg2, hg, capturedOf, hR, alGet_alPut_self]
            · simp [hid, hst, hcfg2, hg, capturedOf, hR,
                alGet_alPut_ne _ _ _ _ hgg]
          · simp [hid, hst, hcfg2, hg]
        · have hcfg2 : configurationIsOk req.configuration = false ∨
              s.persistent.id ∉ req.configuration := by
            cases hA : configurationIsOk req.configuration
            · exact Or.inl rfl
            · right
              intro hmem
              refine hcfg ?_
              rw [Bool.and_eq_true]
              exact ⟨hA, by simpa using hmem⟩
          simp [hid, hst, hcfg2]

/-- The one real mutation: a successful `CaptureNext` advances the group's
captured pair to exactly the next index; everything else leaves it
untouched. -/
theorem handleCaptureNext_captured (s : Hsm) (req : CaptureNextRequest)
    (g : GroupId) :
    capturedOf (handleCaptureNext s req).2 g = capturedOf s g ∨
    ((capturedOf (handleCaptureNext s req).2 g).isSome = true ∧
      capIdx (capturedOf (handleCaptureNext s req).2 g) =
        capIdx (capturedOf s g) + 1) := by
  unfold handleCaptureNext
  rcases hR : s.persistent.realm with _ | realm
  · left; rfl
  · by_cases hid : realm.id ≠ req.realm
    · left; simp [hid]
    · by_cases hv : (!verifyEntry s.persistent.realmKey req.realm req.group
          req.entry.index req.entry.partition req.entry.transferringOut
          req.entry.prevHmac req.entry.entryHmac) = true
      · left; simp [hid, hv]
      · rcases hg : alGet realm.groups req.group with _ | group
        · left; simp [hid, hv, hg]
        · rcases hcap : group.captured with _ | ⟨ci, cm⟩
          · by_cases h1 : req.entry.index ≠ 1
            · left; simp [hid, hv, hg, hcap, h1]
            · by_cases h2 : req.entry.prevHmac ≠ EntryHmac.zero
              · left; simp [hid, hv, hg, hcap, h1, h2]
              · push_neg at h1 h2
                have hv2 : verifyEntry s.persistent.realmKey req.realm req.group
                    1 req.entry.partition req.entry.transferringOut
                    EntryHmac.zero req.entry.entryHmac = true := by
                  rw [← h1, ← h2]
                  simpa using hv
                by_cases hgg : g = req.group
                · subst hgg
                  right
                  simp [hid, hv2, hg, hcap, h1, h2, capturedOf, hR,
                    alGet_alPut_self, capIdx]
                · left
                  simp [hid, hv2, hg, hcap, h1, h2, capturedOf, hR,
                    alGet_alPut_ne _ _ _ _ hgg]
          · by_cases h1 : req.entry.index ≠ ci + 1
            · left; simp [hid, hv, hg, hcap, h1]
            · by_cases h2 : req.entry.prevHmac ≠ cm
              · left; simp [hid, hv, hg, hcap, h1, h2]
              · push_neg at h1 h2
                have hv2 : verifyEntry s.persistent.realmKey req.realm req.group
                    (ci + 1) req.entry.partition req.entry.transferringOut
                    cm req.entry.entryHmac = true := by
                  rw [← h1, ← h2]
                  simpa using hv
                by_cases hgg : g = req.group
                · subst hgg
                  right
                  simp [hid, hv2, hg, hcap, h1, h2, capturedOf, hR,
                    alGet_alPut_self, capIdx]
                · left
                  simp [hid, hv2, hg, hcap, h1, h2, capturedOf, hR,
                    alGet_alPut_ne _ _ _ _ hgg]

theorem step_captured_monotone (ap : AppProcess) (s : Hsm) (cmd : Command)
    (out : Response × Hsm) (h : step ap s cmd = some out) (g : GroupId) :
    capturedOf out.2 g = capturedOf s g ∨
    ((capturedOf out.2 g).isSome = true ∧
      capIdx (capturedOf out.2 g) = capIdx (capturedOf s g) + 1) := by
  cases cmd with
  | status =>
    left
    simp only [step] at h
    rcases hs : handleStatus s with _ | p <;> rw [hs] at h
    · cases h
    · cases h
      exact capturedOf_eq_of_persistent (handleStatus_persistent s p hs) g
  | newRealm req rid gid =>
    left
    simp only [step] at h
    rcases hs : handleNewRealm s req rid gid with _ | p <;> rw [hs] at h
    · cases h
    · cases h
      exact handleNewRealm_captured s req rid gid p hs g
  | joinRealm req =>
    left
    simp only [step] at h
    cases h
    exact handleJoinRealm_captured s req g
  | newGroup req gid =>
    left
    simp only [step] at h
    rcases hs : handleNewGroup s req gid with _ | p <;> rw [hs] at h
    · cases h
    · cases h
      exact handleNewGroup_captured s req gid p hs g
  | joinGroup req =>
    left
    simp only [step] at h
    cases h
    exact handleJoinGroup_captured s req g
  | captureNext req =>
    simp only [step] at h
    cases h
    exact handleCaptureNext_captured s req g
  | becomeLeader req =>
    left
    simp only [step] at h
    cases h
    exact capturedOf_eq_of_persistent (handleBecomeLeader_persistent s req) g
  | readCaptured req =>
    left
    simp only [step] at h
    cases h
    exact capturedOf_eq_of_persistent (handleReadCaptured_persistent s req) g
  | commit req =>
    left
    simp only [step] at h
    cases h
    exact capturedOf_eq_of_persistent (handleCommit_persistent s req) g
  | transferOut req =>
    left
    simp only [step] at h
    rcases hs : handleTransferOut s req with _ | p <;> rw [hs] at h
    · cases h
    · cases h
      exact capturedOf_eq_of_persistent (handleTransferOut_persistent s req p hs) g
  | transferNonce req nonce =>
    left
    simp only [step] at h
    cases h
    exact capturedOf_eq_of_persistent
      (handleTransferNonce_persistent s req nonce) g
  | transferStatement req =>
    left
    simp only [step] at h
    rcases hs : handleTransferStatement s req with _ | p <;> rw [hs] at h
    · cases h
    · cases h
      exact capturedOf_eq_of_persistent
        (handleTransferStatement_persistent s req p hs) g
  | transferIn req =>
    left
    simp only [step] at h
    rcases hs : handleTransferIn s req with _ | p <;> rw [hs] at h
    · cases h
    · cases h
      exact capturedOf_eq_of_persistent (handleTransferIn_persistent s req p hs) g
  | completeTransfer req =>
    left
    simp only [step] at h
    rcases hs : handleCompleteTransfer s req with _ | p <;> rw [hs] at h
    · cases h
    · cases h
      exact capturedOf_eq_of_persistent
        (handleCompleteTransfer_persistent s req p hs) g
  | app req =>
    left
    simp only [step] at h
    rcases hs : handleApp ap s req with _ | p <;> rw [hs] at h
    · cases h
    · cases h
      exact capturedOf_eq_of_persistent (handleApp_persistent ap s req p hs) g

theorem run_captured_monotone (ap : AppProcess) (cmds : List Command)
    (s s' : Hsm) (h : run ap cmds s = some s') (g : GroupId) :
    capIdx (capturedOf s g) ≤ capIdx (capturedOf s' g) ∧
    ((capturedOf s g).isSome = true → (capturedOf s' g).isSome = true) := by
  induction cmds generalizing s with
  | nil =>
    simp only [run] at h
    cases h
    exact ⟨le_refl _, fun hh => hh⟩
  | cons c cs ih =>
    simp only [run] at h
    rcases hs : step ap s c with _ | out <;> rw [hs] at h
    · cases h
    · obtain ⟨r, s2⟩ := out
      obtain ⟨h1, h2⟩ := ih s2 h
      rcases step_captured_monotone ap s c (r, s2) hs g with heq | ⟨hsome, hidx⟩
      · rw [heq] at h1 h2
        exact ⟨h1, h2⟩
      · refine ⟨le_trans ?_ h1, fun _ => h2 hsome⟩
        rw [hidx]
        exact Nat.le_succ _

/-- C3: no command handler ever replaces a group's persistent captured
pair with one of lower or equal index — a processed command either leaves
it exactly as it was, or (only `CaptureNext`) replaces it with a pair
whose index is exactly one higher (`1` when none existed), and no command
removes an existing capture; consequently, over every sequence of
commands processed by a single HSM, the captured index is monotonically
non-decreasing and a capture, once present, stays present. -/
theorem captured_monotonicity :
    (∀ (ap : AppProcess) (s : Hsm) (cmd : Command) (out : Response × Hsm),
      step ap s cmd = some out → ∀ g : GroupId,
      capturedOf out.2 g = capturedOf s g ∨
      ((capturedOf out.2 g).isSome = true ∧
        capIdx (capturedOf out.2 g) = capIdx (capturedOf s g) + 1)) ∧
    (∀ (ap : AppProcess) (cmds : List Command) (s s' : Hsm),
      run ap cmds s = some s' → ∀ g : GroupId,
      capIdx (capturedOf s g) ≤ capIdx (capturedOf s' g) ∧
      ((capturedOf s g).isSome = true → (capturedOf s' g).isSome = true)) :=
  ⟨fun ap s cmd out h g => step_captured_monotone ap s cmd out h g,
   fun ap cmds s s' h g => run_captured_monotone ap cmds s s' h g⟩

/-- C3 witness: a capture of the next entry steps the captured index from
1 to 2. -/
theorem captured_monotonicity_witness :
    step ap0 c2State (.captureNext c2Req) = some c3Out ∧
    (capturedOf c3Out.2 ⟨0⟩ = capturedOf c2State ⟨0⟩ ∨
      ((capturedOf c3Out.2 ⟨0⟩).isSome = true ∧
        capIdx (capturedOf c3Out.2 ⟨0⟩) = capIdx (capturedOf c2State ⟨0⟩) + 1)) :=
  ⟨by decide,
   captured_monotonicity.1 ap0 c2State (.captureNext c2Req) c3Out (by decide) ⟨0⟩⟩

/-- C2 witness: a concrete first capture (no prior capture, entry index 1,
zero `prev_mac`) exercising the rule. -/
theorem captureNext_chain_rule_witness :
    (isOkCN (handleCaptureNext c2State c2Req).1 = true ↔
      (c2Req.entry.index = expectedIndex (some (1, c2Mac)) ∧
       c2Req.entry.prevHmac = expectedPrev (some (1, c2Mac)))) ∧
    (c2Req.entry.index ≠ expectedIndex (some (1, c2Mac)) →
      handleCaptureNext c2State c2Req = (.missingPrev, c2State)) ∧
    (c2Req.entry.index = expectedIndex (some (1, c2Mac)) →
      c2Req.entry.prevHmac ≠ expectedPrev (some (1, c2Mac)) →
      handleCaptureNext c2State c2Req = (.invalidChain, c2State)) :=
  captureNext_chain_rule c2State c2Req ⟨⟨0⟩, [(⟨0⟩, ⟨[⟨0⟩], some (1, c2Mac)⟩)]⟩
    ⟨[⟨0⟩], some (1, c2Mac)⟩ rfl rfl rfl rfl

end HsmCore

namespace ByteSeq

theorem lexLt_irrefl : ∀ l : List Nat, lexLt l l = false
  | [] => rfl
  | a :: as => by simp [lexLt, lexLt_irrefl as]

theorem lexLt_asymm : ∀ a b : List Nat, lexLt a b = true → lexLt b a = false := by
  intro a
  induction a with
  | nil =>
    intro b h
    cases b <;> simp [lexLt]
  | cons x xs ih =>
    intro b h
    cases b with
    | nil => simp [lexLt] at h
    | cons y ys =>
      simp only [lexLt, Bool.or_eq_true, Bool.and_eq_true, decide_eq_true_eq,
        beq_iff_eq] at h
      rcases h with hlt | ⟨heq, hrec⟩
      · have h1 : ¬y < x := by omega
        have h2 : y ≠ x := by omega
        simp [lexLt, h1, h2]
      · subst heq
        simp [lexLt, ih ys hrec]

theorem lexLe_false_of_lexLt (a b : List Nat) (h : lexLt a b = true) :
    lexLe b a = false := by
  unfold lexLe
  have h1 : lexLt b a = false := lexLt_asymm a b h
  have h2 : b ≠ a := by
    intro hh
    subst hh
    rw [lexLt_irrefl] at h
    cases h
  simp [h1, h2]

theorem lexLt_append_left (p xs ys : List Nat) :
    lexLt (p ++ xs) (p ++ ys) = lexLt xs ys := by
  induction p with
  | nil => rfl
  | cons a as ih => simp [lexLt, ih]

theorem beBytes_lt (k : Nat) : ∀ m n : Nat, m < n → n < 256 ^ k →
    lexLt (beBytes k m) (beBytes k n) = true := by
  induction k with
  | zero =>
    intro m n h1 h2
    simp only [pow_zero] at h2
    omega
  | succ k ih =>
    intro m n h1 h2
    have hpow : (0 : Nat) < 256 ^ k := Nat.pos_pow_of_pos k (by norm_num)
    have hdn : n / 256 ^ k < 256 := by
      rw [Nat.div_lt_iff_lt_mul hpow]
      calc n < 256 ^ (k + 1) := h2
        _ = 256 * 256 ^ k := by rw [pow_succ]; ring
    have hdle : m / 256 ^ k ≤ n / 256 ^ k := Nat.div_le_div_right (le_of_lt h1)
    simp only [beBytes]
    rcases lt_or_eq_of_le hdle with hlt | heq
    · have hmm : m / 256 ^ k % 256 = m / 256 ^ k :=
        Nat.mod_eq_of_lt (lt_of_le_of_lt hdle hdn)
      have hnn : n / 256 ^ k % 256 = n / 256 ^ k := Nat.mod_eq_of_lt hdn
      simp [lexLt, hmm, hnn, hlt]
    · have em := Nat.div_add_mod m (256 ^ k)
      have en := Nat.div_add_mod n (256 ^ k)
      rw [heq] at em
      have hmod : m % 256 ^ k < n % 256 ^ k := by omega
      have hmodlt : n % 256 ^ k < 256 ^ k := Nat.mod_lt _ hpow
      simp [lexLt, heq, ih _ _ hmod hmodlt]

theorem beBytes_length (k : Nat) : ∀ n : Nat, (beBytes k n).length = k := by
  induction k with
  | zero => intro n; rfl
  | succ k ih => intro n; simp [beBytes, ih]

theorem beVal_foldl (k : Nat) : ∀ n acc : Nat, n < 256 ^ k →
    (beBytes k n).foldl (fun a b => a * 256 + b) acc = acc * 256 ^ k + n := by
  induction k with
  | zero =>
    intro n acc h
    simp only [pow_zero] at h ⊢
    simp [beBytes]
    omega
  | succ k ih =>
    intro n acc h
    have hpow : (0 : Nat) < 256 ^ k := Nat.pos_pow_of_pos k (by norm_num)
    have hdn : n / 256 ^ k < 256 := by
      rw [Nat.div_lt_iff_lt_mul hpow]
      calc n < 256 ^ (k + 1) := h
        _ = 256 * 256 ^ k := by rw [pow_succ]; ring
    have hmm : n / 256 ^ k % 256 = n / 256 ^ k := Nat.mod_eq_of_lt hdn
    have hd : 256 ^ k * (n / 256 ^ k) + n % 256 ^ k = n := Nat.div_add_mod n (256 ^ k)
    simp only [beBytes, List.foldl_cons]
    rw [ih (n % 256 ^ k) _ (Nat.mod_lt _ hpow), hmm]
    calc (acc * 256 + n / 256 ^ k) * 256 ^ k + n % 256 ^ k
        = acc * (256 ^ k * 256) + (256 ^ k * (n / 256 ^ k) + n % 256 ^ k) := by ring
      _ = acc * 256 ^ (k + 1) + n := by rw [hd, pow_succ]

theorem beVal_beBytes (k n : Nat) (h : n < 256 ^ k) :
    beVal (beBytes k n) = n := by
  have := beVal_foldl k n 0 h
  simpa [beVal] using this

end ByteSeq

namespace Bigtable

theorem logKey_lt (g : GroupBytes) (i j : Nat) (hij : i < j) (hj : j < 2 ^ 64) :
    ByteSeq.lexLt (logKey g j) (logKey g i) = true := by
  unfold logKey downwardBytes
  rw [ByteSeq.lexLt_append_left]
  apply ByteSeq.beBytes_lt
  · omega
  · have h256 : (256 : Nat) ^ 8 = 2 ^ 64 := by norm_num
    omega

/-- C8: the log row key is exactly the group's 16 bytes followed by the
8-byte big-endian encoding of `u64::MAX − index`, and for a fixed group
the lexicographic order of row keys is the exact reverse of the index
order: a higher index has a strictly smaller key, so an ascending scan
meets the newest index first. -/
theorem logKey_layout_and_order (g : GroupBytes) (i j : Nat)
    (_hg : g.length = 16) (hij : i < j) (hj : j < 2 ^ 64) :
    logKey g i = g ++ ByteSeq.beBytes 8 (2 ^ 64 - 1 - i) ∧
    ByteSeq.lexLt (logKey g j) (logKey g i) = true :=
  ⟨rfl, logKey_lt g i j hij hj⟩

/-- C8 witness: indices 1 and 2 of the zero group id. -/
theorem logKey_layout_and_order_witness :
    logKey (List.replicate 16 0) 1 =
      List.replicate 16 0 ++ ByteSeq.beBytes 8 (2 ^ 64 - 1 - 1) ∧
    ByteSeq.lexLt (logKey (List.replicate 16 0) 2)
      (logKey (List.replicate 16 0) 1) = true :=
  logKey_layout_and_order (List.replicate 16 0) 1 2 (by decide) (by decide)
    (by norm_num)

theorem scanFirst_append_below (rows : List (List Nat × Cells))
    (lo hi q k : List Nat) (cells : Cells)
    (hk : ByteSeq.lexLe lo k = false) :
    scanFirstWithQualifier (rows ++ [(k, cells)]) lo hi q =
      scanFirstWithQualifier rows lo hi q := by
  unfold scanFirstWithQualifier
  rw [List.filter_append]
  have hdrop : List.filter (fun r =>
      ByteSeq.lexLe lo r.1 && ByteSeq.lexLe r.1 hi &&
      r.2.any (fun c => c.1 = q)) [(k, cells)] = [] := by
    simp [hk]
  rw [hdrop, List.append_nil]

theorem readLogEntry_append_below (rows : List (List Nat × Cells))
    (g : GroupBytes) (idx : Nat) (k : List Nat) (cells : Cells)
    (hk : ByteSeq.lexLe (logKey g idx) k = false) :
    readLogEntry (rows ++ [(k, cells)]) g idx = readLogEntry rows g idx := by
  unfold readLogEntry
  rw [scanFirst_append_below rows _ _ _ k cells hk]

theorem rowAt_append_absent (rows : List (List Nat × Cells)) (k : List Nat)
    (cells : Cells) (h : rowAt rows k = none) :
    rowAt (rows ++ [(k, cells)]) k = some cells := by
  induction rows with
  | nil => simp [rowAt]
  | cons r rest ih =>
    by_cases hr : r.1 = k
    · exfalso
      unfold rowAt at h
      rw [List.find?_cons_of_pos _ (by simpa using hr)] at h
      simp at h
    · unfold rowAt at h ⊢
      rw [List.find?_cons_of_neg _ (by simpa using hr)] at h
      rw [List.cons_append, List.find?_cons_of_neg _ (by simpa using hr)]
      exact ih h

/-- The previous-entry check of a batch at index `i` is unaffected by a new
row keyed `log_key(group, i)`: that key sorts strictly below the whole scan
range `[log_key(group, i-1), log_key(group, 1)]`. -/
theorem prevCheck_append_newer (cache : Option LastWrite)
    (rows : List (List Nat × Cells)) (realm : Nat) (g : GroupBytes)
    (first : Entry) (cells : Cells) (i : Nat)
    (hidx : first.index = i) (hi : i < 2 ^ 64) :
    prevCheck cache (rows ++ [(logKey g i, cells)]) realm g first =
      prevCheck cache rows realm g first := by
  unfold prevCheck
  by_cases h1 : first.index = 1
  · simp [h1]
  · by_cases h0 : first.index = 0
    · simp [h0, h1]
    · have hlt : ByteSeq.lexLt (logKey g i) (logKey g (first.index - 1)) = true := by
        subst hidx
        exact logKey_lt g (first.index - 1) first.index (by omega) hi
      have hk : ByteSeq.lexLe (logKey g (first.index - 1)) (logKey g i) = false :=
        ByteSeq.lexLe_false_of_lexLt _ _ hlt
      simp only [if_neg h1, if_neg h0,
        readLogEntry_append_below rows g (first.index - 1) (logKey g i) cells hk]

/-- What a successful `append` implies: the previous-entry check passed,
the batch chain was valid, the row was absent, and the new log table is
the old one plus the batch's row. -/
theorem append_ok_elim (cache : Option LastWrite) (tab : StoreTables)
    (realm : Nat) (g : GroupBytes) (items : List AppendItem)
    (first : AppendItem) (cache2 : Option LastWrite) (tab2 : StoreTables)
    (hh : items.head? = some first)
    (h : append cache tab realm g items = some (.ok (), cache2, tab2)) :
    prevCheck cache tab.logRows realm g first.entry = some true ∧
    batchChainOk items = true ∧
    rowAt tab.logRows (logKey g first.entry.index) = none ∧
    tab2.logRows = tab.logRows ++
      [(logKey g first.entry.index,
        items.map (fun it => (downwardBytes it.entry.index, it.entry)))] := by
  unfold append at h
  simp only [hh] at h
  rcases hpc : prevCheck cache tab.logRows realm g first.entry with _ | b <;>
    rw [hpc] at h
  · cases h
  · cases b
    · simp at h
    · cases hbc : batchChainOk items
      · simp [hbc] at h
      · simp only [hbc, Bool.not_true, Bool.false_eq_true, if_false] at h
        rcases hrow : rowAt tab.logRows (logKey g first.entry.index) with _ | cells
        · simp only [hrow, Option.isSome_none, Bool.false_eq_true, if_false] at h
          rcases hl : items.getLast? with _ | lastItem <;> rw [hl] at h
          · cases h
          · cases h
            exact ⟨rfl, rfl, rfl, rfl⟩
        · simp only [hrow, Option.isSome_some, if_true] at h
          cases h

/-- C4: two racing appends of batches starting at the same index `i` are
resolved by the conditional (`CheckAndMutateRow`) log write: from a store
with no row at `log_key(group, i)`, if each append would succeed on its
own, then after the first one succeeds the second returns
`LogPrecondition`, changes no log row and not even its client cache, and
the row at `log_key(group, i)` holds exactly the first append's entries —
so at most one `entry_mac` is ever durably stored at `(group, i)`. -/
theorem append_race (cacheA cacheB : Option LastWrite) (tab : StoreTables)
    (realm : Nat) (g : GroupBytes) (itemsA itemsB : List AppendItem) (i : Nat)
    (hi : i < 2 ^ 64)
    (hA0 : (itemsA.head?).map (fun it => it.entry.index) = some i)
    (hB0 : (itemsB.head?).map (fun it => it.entry.index) = some i)
    (cacheA2 tabA : _) (hA : append cacheA tab realm g itemsA =
      some (.ok (), cacheA2, tabA))
    (cacheB2 tabB : _) (hB : append cacheB tab realm g itemsB =
      some (.ok (), cacheB2, tabB)) :
    (append cacheB tabA realm g itemsB).map
        (fun r => (r.1, r.2.1, r.2.2.logRows)) =
      some (.error .logPrecondition, cacheB, tabA.logRows) ∧
    rowAt tabA.logRows (logKey g i) =
      some (itemsA.map (fun it => (downwardBytes it.entry.index, it.entry))) := by
  rcases hAh : itemsA.head? with _ | firstA
  · rw [hAh] at hA0; cases hA0
  rcases hBh : itemsB.head? with _ | firstB
  · rw [hBh] at hB0; cases hB0
  rw [hAh] at hA0
  rw [hBh] at hB0
  simp only [Option.map_some', Option.some.injEq] at hA0 hB0
  obtain ⟨hApc, hAbc, hArow, hAtab⟩ := append_ok_elim cacheA tab realm g itemsA
    firstA cacheA2 tabA hAh hA
  obtain ⟨hBpc, hBbc, hBrow, hBtab⟩ := append_ok_elim cacheB tab realm g itemsB
    firstB cacheB2 tabB hBh hB
  rw [hA0] at hAtab hArow
  have hrowA : rowAt tabA.logRows (logKey g i) =
      some (itemsA.map (fun it => (downwardBytes it.entry.index, it.entry))) := by
    rw [hAtab]
    exact rowAt_append_absent _ _ _ hArow
  refine ⟨?_, hrowA⟩
  have hpcB : prevCheck cacheB tabA.logRows realm g firstB.entry = some true := by
    rw [hAtab, prevCheck_append_newer cacheB tab.logRows realm g firstB.entry _ i
      hB0 hi]
    exact hBpc
  have hsome : (rowAt tabA.logRows (logKey g firstB.entry.index)).isSome = true := by
    rw [hB0, hrowA]
    rfl
  have hstep : append cacheB tabA realm g itemsB =
      some (.error .logPrecondition, cacheB,
        { tabA with merkle := tabA.merkle ++
            (itemsB.filterMap (fun it => it.delta.map MerkleDelta.add)).flatten }) := by
    unfold append
    simp only [hBh, hpcB, hBbc, Bool.not_true, Bool.false_eq_true, if_false,
      hsome, if_true]
  rw [hstep]
  rfl

theorem append_race_witness :
    ((append none c4TabA 0 c4G c4ItemsB).map
        (fun r => (r.1, r.2.1, r.2.2.logRows)) =
      some (.error .logPrecondition, none, c4TabA.logRows) ∧
     rowAt c4TabA.logRows (logKey c4G 1) =
      some (c4ItemsA.map (fun it => (downwardBytes it.entry.index, it.entry)))) :=
  append_race none none c4Tab0 0 c4G c4ItemsA c4ItemsB 1 (by norm_num)
    rfl rfl (some (0, c4G, 1, 10)) c4TabA rfl (some (0, c4G, 1, 20)) c4TabB rfl

end Bigtable

namespace HsmTypes

/-- C6: a requested range that is a strict sub-range of the owned range and
touches neither its start nor its end (so the remainder would not stay
contiguous) is rejected: the range-acceptance step yields
`UnacceptableRange` — `OwnedRange::split_at` returns `Err(())` on such a
middle range — and no `transferring_out` log entry is appended, leaving the
owned range unchanged. -/
theorem transferOut_middle_range (owned range : OwnedRange)
    (hc : owned.containsRange range = true)
    (hs : range.start ≠ owned.start)
    (he : range.endId ≠ owned.endId) :
    transferOutRangeCheck owned range = .unacceptableRange ∧
    transferOutAppendsEntry (transferOutRangeCheck owned range) = false := by
  have hne : range ≠ owned := fun h => hs (by rw [h])
  have hs' : owned.start ≠ range.start := Ne.symm hs
  have he' : owned.endId ≠ range.endId := Ne.symm he
  have h1 : transferOutRangeCheck owned range = .unacceptableRange := by
    simp [transferOutRangeCheck, OwnedRange.splitAt, hne, hc, hs', he']
  exact ⟨h1, by rw [h1]; rfl⟩

theorem transferOut_middle_range_witness :
    transferOutRangeCheck OwnedRange.full
        ⟨1 :: List.replicate 31 0, 2 :: List.replicate 31 0⟩ =
      .unacceptableRange ∧
    transferOutAppendsEntry (transferOutRangeCheck OwnedRange.full
        ⟨1 :: List.replicate 31 0, 2 :: List.replicate 31 0⟩) = false :=
  transferOut_middle_range OwnedRange.full
    ⟨1 :: List.replicate 31 0, 2 :: List.replicate 31 0⟩
    (by decide) (by decide) (by decide)

end HsmTypes

namespace Entrust

/-- C7: every payload of at most `MAX_NVRAM_SIZE = 2000` bytes is written
as a full `NCIPHER_NVRAM_LEN = 4096`-byte page whose last 4 bytes are the
big-endian 32-bit payload length, and reading that page back returns
exactly the payload (the page is truncated to the stored length); a longer
payload is rejected without writing. -/
theorem nvram_roundtrip (d : List Nat) :
    (d.length ≤ MAX_NVRAM_SIZE →
      ∃ page, nvWrite d = .ok page ∧
        page.length = NCIPHER_NVRAM_LEN ∧
        page.drop NVRAM_LEN_OFFSET = ByteSeq.beBytes 4 d.length ∧
        nvRead page = .ok d) ∧
    (d.length > MAX_NVRAM_SIZE → nvWrite d = .error .dataTooLarge) := by
  have hm : MAX_NVRAM_SIZE = 2000 := rfl
  have ho : NVRAM_LEN_OFFSET = 4092 := rfl
  have hn : NCIPHER_NVRAM_LEN = 4096 := rfl
  constructor
  · intro h
    have hP : (d ++ List.replicate (NVRAM_LEN_OFFSET - d.length) 0).length =
        NVRAM_LEN_OFFSET := by
      simp only [List.length_append, List.length_replicate]
      omega
    have hbe : (ByteSeq.beBytes 4 d.length).length = 4 :=
      ByteSeq.beBytes_length 4 d.length
    have hpage : (d ++ List.replicate (NVRAM_LEN_OFFSET - d.length) 0 ++
        ByteSeq.beBytes 4 d.length).length = NCIPHER_NVRAM_LEN := by
      simp only [List.length_append, List.length_replicate, hbe]
      omega
    have hdrop : (d ++ List.replicate (NVRAM_LEN_OFFSET - d.length) 0 ++
        ByteSeq.beBytes 4 d.length).drop NVRAM_LEN_OFFSET =
        ByteSeq.beBytes 4 d.length := List.drop_left' hP
    refine ⟨_, ?_, hpage, hdrop, ?_⟩
    · unfold nvWrite
      rw [if_neg (by omega)]
    · unfold nvRead
      rw [if_neg (fun hne => hne hpage), hdrop]
      have h32 : d.length < 256 ^ 4 := by
        have h4 : (256 : Nat) ^ 4 = 4294967296 := by norm_num
        omega
      rw [List.take_of_length_le (le_of_eq (ByteSeq.beBytes_length 4 d.length)),
        ByteSeq.beVal_beBytes 4 d.length h32, List.append_assoc,
        List.take_left' rfl]
  · intro h
    unfold nvWrite
    rw [if_pos h]

theorem nvram_roundtrip_witness :
    ∃ page, nvWrite [7] = .ok page ∧
      page.length = NCIPHER_NVRAM_LEN ∧
      page.drop NVRAM_LEN_OFFSET = ByteSeq.beBytes 4 ([7] : List Nat).length ∧
      nvRead page = .ok [7] :=
  (nvram_roundtrip [7]).1 (by decide)

end Entrust

namespace AgentApi

theorem isLower_hexDigit (n : Nat) (h : n < 16) :
    isLowerHexDigit (hexDigit n) = true := by
  interval_cases n <;> decide

theorem hexDigitVal_hexDigit (n : Nat) (h : n < 16) :
    hexDigitVal (hexDigit n) = n := by
  interval_cases n <;> decide

theorem hexEncode_lower : ∀ (bytes : List Nat), (∀ b ∈ bytes, b < 256) →
    ∀ c ∈ hexEncode bytes, isLowerHexDigit c = true := by
  intro bytes
  induction bytes with
  | nil => intro _ c hc; simp [hexEncode] at hc
  | cons b rest ih =>
    intro h c hc
    have hb : b < 256 := h b (List.mem_cons_self _ _)
    simp only [hexEncode, List.flatMap_cons, List.cons_append, List.nil_append,
      List.mem_cons, List.mem_append] at hc
    rcases hc with h1 | h1 | h1
    · subst h1; exact isLower_hexDigit _ (Nat.div_lt_of_lt_mul (by omega))
    · subst h1; exact isLower_hexDigit _ (Nat.mod_lt _ (by norm_num))
    · exact ih (fun x hx => h x (List.mem_cons_of_mem _ hx)) c h1

theorem hexDecode_hexEncode : ∀ (bytes : List Nat), (∀ b ∈ bytes, b < 256) →
    hexDecode (hexEncode bytes) = bytes := by
  intro bytes
  induction bytes with
  | nil => intro _; rfl
  | cons b rest ih =>
    intro h
    have hb : b < 256 := h b (List.mem_cons_self _ _)
    have h1 : hexEncode (b :: rest) =
        hexDigit (b / 16) :: hexDigit (b % 16) :: hexEncode rest := by
      simp [hexEncode]
    rw [h1]
    simp only [hexDecode]
    rw [hexDigitVal_hexDigit _ (Nat.div_lt_of_lt_mul (by omega)),
      hexDigitVal_hexDigit _ (Nat.mod_lt _ (by norm_num)),
      ih (fun x hx => h x (List.mem_cons_of_mem _ hx))]
    have hbb : b / 16 * 16 + b % 16 = b := by omega
    rw [hbb]

/-- C9: for any digest function whose output is made of bytes, any tenant
without `':'` and any user, `HashedUserId::new` succeeds and returns
exactly the spec's `hex(digest(tenant || ':' || user))` — the three
`chain_update` calls absorb precisely that concatenation; a tenant
containing `':'` panics (`assert!`); and the encoding really is lowercase
hexadecimal: every output character is a lowercase hex digit, and decoding
recovers the digest bytes exactly. -/
theorem hashedUserId_matches (digestFn : List Nat → List Nat)
    (tenant user : List Nat)
    (hd : ∀ b ∈ digestFn (tenant ++ colon :: user), b < 256) :
    (tenant.contains colon = false →
      hashedUserIdNew digestFn tenant user =
        some (specHashedUserId digestFn tenant user)) ∧
    (tenant.contains colon = true →
      hashedUserIdNew digestFn tenant user = none) ∧
    (∀ c ∈ specHashedUserId digestFn tenant user, isLowerHexDigit c = true) ∧
    hexDecode (specHashedUserId digestFn tenant user) =
      digestFn (tenant ++ colon :: user) := by
  refine ⟨?_, ?_, ?_, ?_⟩
  · intro h
    have h' : colon ∉ tenant := by simpa using h
    simp [hashedUserIdNew, h', Sha256State.new, Sha256State.chainUpdate,
      Sha256State.finalize, specHashedUserId]
  · intro h
    have h' : colon ∈ tenant := by simpa using h
    simp [hashedUserIdNew, h']
  · exact hexEncode_lower _ hd
  · exact hexDecode_hexEncode _ hd

theorem hashedUserId_matches_witness :
    (([116] : List Nat).contains colon = false →
      hashedUserIdNew (fun l => [l.length % 256]) [116] [117] =
        some (specHashedUserId (fun l => [l.length % 256]) [116] [117])) ∧
    (([116] : List Nat).contains colon = true →
      hashedUserIdNew (fun l => [l.length % 256]) [116] [117] = none) ∧
    (∀ c ∈ specHashedUserId (fun l => [l.length % 256]) [116] [117],
      isLowerHexDigit c = true) ∧
    hexDecode (specHashedUserId (fun l => [l.length % 256]) [116] [117]) =
      (fun l : List Nat => [l.length % 256]) ([116] ++ colon :: [117]) :=
  hashedUserId_matches (fun l => [l.length % 256]) [116] [117] (by decide)

end AgentApi

namespace Cluster

theorem getLast_append3 (l : List Event) (a b c : Event) :
    (l ++ [a, b, c]).getLast? = some c := by
  rw [show l ++ [a, b, c] = (l ++ [a, b]) ++ [c] by simp]
  exact List.getLast?_concat _

theorem loopGo_TO (oracle : Nat → AttemptOracle) :
    ∀ (fuel attempt : Nat) (state : TState) (lastErr : Option TransferError)
      (c : Bool) (tr : List Event),
      Event.out (.ok .commitTimeout) ∉ tr →
      Event.cancel ∉ tr →
      Event.out (.ok .commitTimeout) ∈
        (loopGo oracle fuel attempt state lastErr c tr).trace →
      (loopGo oracle fuel attempt state lastErr c tr).result =
        some (.err .commitTimeout) ∧
      (loopGo oracle fuel attempt state lastErr c tr).trace.getLast? =
        some (.out (.ok .commitTimeout)) ∧
      Event.cancel ∉ (loopGo oracle fuel attempt state lastErr c tr).trace := by
  intro fuel
  induction fuel with
  | zero =>
    intro attempt state lastErr c tr h1 h2 hmem
    cases c <;> simp [loopGo, finish, h1] at hmem
  | succ fuel ih =>
    intro attempt state lastErr c tr h1 h2 hmem
    cases hsrc : (oracle attempt).sourceLeader with
    | false =>
      simp only [loopGo, hsrc, Bool.not_false, if_true] at hmem ⊢
      exact ih _ _ _ _ _ (by simp [h1]) (by simp [h2]) hmem
    | true =>
    cases hdst : (oracle attempt).destLeader with
    | false =>
      simp only [loopGo, hsrc, hdst, Bool.not_true, Bool.not_false,
        Bool.false_eq_true, if_false, if_true] at hmem ⊢
      exact ih _ _ _ _ _ (by simp [h1]) (by simp [h2]) hmem
    | true =>
    cases state with
    | completing =>
      cases hcmp : (oracle attempt).complete with
      | ok r =>
        cases r <;>
          simp only [loopGo, completingPhase, hsrc, hdst, Bool.not_true,
            Bool.false_eq_true, if_false, hcmp] at hmem ⊢ <;>
          first
          | (cases c <;> simp [finish, h1] at hmem <;> done)
          | exact ih _ _ _ _ _ (by simp [h1]) (by simp [h2]) hmem
      | netErr =>
        simp only [loopGo, completingPhase, hsrc, hdst, Bool.not_true,
          Bool.false_eq_true, if_false, hcmp] at hmem ⊢
        exact ih _ _ _ _ _ (by simp [h1]) (by simp [h2]) hmem
    | transferring =>
      cases hp : (oracle attempt).prepare with
      | netErr =>
        simp only [loopGo, transferringPhase, hsrc, hdst, Bool.not_true,
          Bool.false_eq_true, if_false, hp] at hmem ⊢
        exact ih _ _ _ _ _ (by simp [h1]) (by simp [h2]) hmem
      | ok pr =>
      cases pr with
      | ok =>
        cases hout : (oracle attempt).out with
        | netErr =>
          simp only [loopGo, transferringPhase, hsrc, hdst, Bool.not_true,
            Bool.false_eq_true, if_false, hp, hout] at hmem ⊢
          exact ih _ _ _ _ _ (by simp [h1]) (by simp [h2]) hmem
        | ok orr =>
        cases orr with
        | commitTimeout =>
          simp only [loopGo, transferringPhase, hsrc, hdst, Bool.not_true,
            Bool.false_eq_true, if_false, hp, hout]
          refine ⟨?_, ?_, ?_⟩
          · simp only [finish, Bool.false_eq_true, if_false]
          · simp only [finish, Bool.false_eq_true, if_false]
            exact List.getLast?_concat _
          · simp only [finish, Bool.false_eq_true, if_false]
            simp [h2]
        | ok =>
          cases htin : (oracle attempt).tin with
          | netErr =>
            simp only [loopGo, transferringPhase, hsrc, hdst, Bool.not_true,
              Bool.false_eq_true, if_false, hp, hout, htin] at hmem ⊢
            exact ih _ _ _ _ _ (by simp [h1]) (by simp [h2]) hmem
          | ok trr =>
          cases trr with
          | ok =>
            cases hcmp : (oracle attempt).complete with
            | ok r =>
              cases r <;>
                simp only [loopGo, transferringPhase, completingPhase, hsrc,
                  hdst, Bool.not_true, Bool.false_eq_true, if_false, hp, hout,
                  htin, hcmp] at hmem ⊢ <;>
                first
                | (simp [finish, h1] at hmem <;> done)
                | exact ih _ _ _ _ _ (by simp [h1]) (by simp [h2]) hmem
            | netErr =>
              simp only [loopGo, transferringPhase, completingPhase, hsrc,
                hdst, Bool.not_true, Bool.false_eq_true, if_false, hp, hout,
                htin, hcmp] at hmem ⊢
              exact ih _ _ _ _ _ (by simp [h1]) (by simp [h2]) hmem
          | _ =>
            simp only [loopGo, transferringPhase, hsrc, hdst, Bool.not_true,
              Bool.false_eq_true, if_false, hp, hout, htin] at hmem ⊢
            first
            | (simp [finish, h1] at hmem <;> done)
            | exact ih _ _ _ _ _ (by simp [h1]) (by simp [h2]) hmem
        | _ =>
          simp only [loopGo, transferringPhase, hsrc, hdst, Bool.not_true,
            Bool.false_eq_true, if_false, hp, hout] at hmem ⊢
          first
          | (cases c <;> simp [finish, h1] at hmem <;> done)
          | exact ih _ _ _ _ _ (by simp [h1]) (by simp [h2]) hmem
      | _ =>
        simp only [loopGo, transferringPhase, hsrc, hdst, Bool.not_true,
          Bool.false_eq_true, if_false, hp] at hmem ⊢
        first
        | (cases c <;> simp [finish, h1] at hmem <;> done)
        | exact ih _ _ _ _ _ (by simp [h1]) (by simp [h2]) hmem

/-- C5: if the `TransferOut` RPC answers `CommitTimeout`, the coordinator's
`transfer` returns the `CommitTimeout` error at once: the `TransferOut`
response is the last externally visible action (no further retry attempt,
no further RPC), and `CancelPreparedTransfer` is never invoked — the
cancel-on-drop guard was disarmed before returning. -/
theorem transfer_commitTimeout_no_cancel (oracle : Nat → AttemptOracle)
    (source destination : Nat)
    (hmem : Event.out (.ok .commitTimeout) ∈
      (transfer oracle source destination).trace) :
    (transfer oracle source destination).result =
      some (.err .commitTimeout) ∧
    (transfer oracle source destination).trace.getLast? =
      some (.out (.ok .commitTimeout)) ∧
    Event.cancel ∉ (transfer oracle source destination).trace := by
  by_cases h : source = destination
  · simp [transfer, h] at hmem
  · simp only [transfer, h, if_false] at hmem ⊢
    exact loopGo_TO oracle 20 1 .transferring none true []
      (by simp) (by simp) hmem

theorem transfer_commitTimeout_no_cancel_witness :
    (transfer (fun _ => ⟨true, true, .ok .ok, .ok .commitTimeout, .ok .ok,
        .ok .ok⟩) 1 2).result = some (.err .commitTimeout) ∧
    (transfer (fun _ => ⟨true, true, .ok .ok, .ok .commitTimeout, .ok .ok,
        .ok .ok⟩) 1 2).trace.getLast? = some (.out (.ok .commitTimeout)) ∧
    Event.cancel ∉ (transfer (fun _ => ⟨true, true, .ok .ok, .ok .commitTimeout,
        .ok .ok, .ok .ok⟩) 1 2).trace :=
  transfer_commitTimeout_no_cancel
    (fun _ => ⟨true, true, .ok .ok, .ok .commitTimeout, .ok .ok, .ok .ok⟩)
    1 2 (by decide)

/-- C10: a transfer whose source group equals its destination group fails
with `InvalidGroup` immediately: the outcome carries an empty action trace,
so no leaders were located, no agent RPC was made and no cancel was
issued — the check precedes the guard and every network action. -/
theorem transfer_same_group (oracle : Nat → AttemptOracle)
    (source destination : Nat) (h : source = destination) :
    transfer oracle source destination =
      ⟨some (.err .invalidGroup), []⟩ := by
  simp [transfer, h]

theorem transfer_same_group_witness :
    transfer (fun _ => ⟨true, true, .ok .ok, .ok .ok, .ok .ok, .ok .ok⟩) 3 3 =
      ⟨some (.err .invalidGroup), []⟩ :=
  transfer_same_group (fun _ => ⟨true, true, .ok .ok, .ok .ok, .ok .ok, .ok .ok⟩)
    3 3 rfl

end Cluster
